import Mathlib

/-!
# ZLGkey / MicroSecurity: SHA-256, HMAC-SHA-256 and the truncated authenticators

Shallow embedding of `src/MicroSecurity/src/MicroSecurity.cpp` and `src/ZLGkey.cpp`, a
definition of SHA-256 after FIPS 180-4 and of HMAC after RFC 2104 to compare them with, and
the properties of the specification proved about the embedding.

Conventions of the embedding:

* `uint8_t` is `Fin 256` (`Byte`); a `(pointer, length)` pair is the list of the
  `length` bytes behind the pointer, and a pointer that may be null is an `Option`.
* `uint32_t` values are `Nat`s kept below `2^32` by an explicit `% 2^32` after every
  operation that can overflow; `uint64_t` likewise with `% 2^64`.
* `size_t` lengths are list lengths (a buffer that exists in memory is shorter than the
  address space, so `64 + msglen` and `seedLen + secretLen` do not wrap).
* fixed-size C arrays are lists; `a[i]` is `List.getD a i 0`, `a[i] = v` is `List.set`;
  an uninitialised local array starts as zeros (each one is fully written before it is read).
* an output parameter is passed in with its previous contents and returned updated; a
  `const` member function returns the stored key it leaves behind next to its result.
-/

namespace microsec

/-- The C type `uint8_t`. -/
abbrev Byte := Fin 256

/-- Wrapping `uint32_t` addition. -/
def add32 (a b : Nat) : Nat := (a + b) % 2 ^ 32

/-- Bitwise complement of a `uint32_t` (`~x`). -/
def not32 (x : Nat) : Nat := 0xFFFFFFFF ^^^ x

/-- `rotr(x, n)`: `(x >> n) | (x << (32 - n))` on `uint32_t`. -/
def rotr (x n : Nat) : Nat := (x >>> n) ||| ((x <<< (32 - n)) % 2 ^ 32)

/-- The table `K256[64]`. -/
def K256 : List Nat := [
  0x428A2F98,0x71374491,0xB5C0FBCF,0xE9B5DBA5,0x3956C25B,0x59F111F1,0x923F82A4,0xAB1C5ED5,
  0xD807AA98,0x12835B01,0x243185BE,0x550C7DC3,0x72BE5D74,0x80DEB1FE,0x9BDC06A7,0xC19BF174,
  0xE49B69C1,0xEFBE4786,0x0FC19DC6,0x240CA1CC,0x2DE92C6F,0x4A7484AA,0x5CB0A9DC,0x76F988DA,
  0x983E5152,0xA831C66D,0xB00327C8,0xBF597FC7,0xC6E00BF3,0xD5A79147,0x06CA6351,0x14292967,
  0x27B70A85,0x2E1B2138,0x4D2C6DFC,0x53380D13,0x650A7354,0x766A0ABB,0x81C2C92E,0x92722C85,
  0xA2BFE8A1,0xA81A664B,0xC24B8B70,0xC76C51A3,0xD192E819,0xD6990624,0xF40E3585,0x106AA070,
  0x19A4C116,0x1E376C08,0x2748774C,0x34B0BCB5,0x391C0CB3,0x4ED8AA4A,0x5B9CCA4F,0x682E6FF3,
  0x748F82EE,0x78A5636F,0x84C87814,0x8CC70208,0x90BEFFFA,0xA4506CEB,0xBEF9A3F7,0xC67178F2]

/-- `memcpy(dst + off, src, n)`: the destination with `n` bytes replaced from offset `off`. -/
def memcpy (dst : List Byte) (off : Nat) (src : List Byte) (n : Nat) : List Byte :=
  dst.take off ++ src.take n ++ dst.drop (off + n)

/-- The byte `block[i]` widened to `uint32_t`. -/
def byteAt (block : List Byte) (i : Nat) : Nat := (block.getD i 0).val

/-- First loop of `process_block`: `w[i]` for `i < 16`, loaded big-endian. -/
def loadWord (block : List Byte) (i : Nat) : Nat :=
  (byteAt block (i*4) <<< 24) ||| (byteAt block (i*4+1) <<< 16)
    ||| (byteAt block (i*4+2) <<< 8) ||| byteAt block (i*4+3)

/-- Body of the second loop of `process_block`: computes and stores `w[t]`. -/
def scheduleStep (w : List Nat) (t : Nat) : List Nat :=
  let s0 := rotr (w.getD (t-15) 0) 7 ^^^ rotr (w.getD (t-15) 0) 18 ^^^ (w.getD (t-15) 0 >>> 3)
  let s1 := rotr (w.getD (t-2) 0) 17 ^^^ rotr (w.getD (t-2) 0) 19 ^^^ (w.getD (t-2) 0 >>> 10)
  w.set t (add32 (add32 (add32 (w.getD (t-16) 0) s0) (w.getD (t-7) 0)) s1)

/-- The eight working variables `a, b, c, d, e, f, g, hh`. -/
structure Vars where
  a : Nat
  b : Nat
  c : Nat
  d : Nat
  e : Nat
  f : Nat
  g : Nat
  hh : Nat
deriving DecidableEq

/-- The working variables as the list `[a, b, c, d, e, f, g, hh]`. -/
def Vars.toList (v : Vars) : List Nat := [v.a, v.b, v.c, v.d, v.e, v.f, v.g, v.hh]

/-- Body of the third loop of `process_block`: one round. -/
def roundStep (w : List Nat) (v : Vars) (t : Nat) : Vars :=
  let S1 := rotr v.e 6 ^^^ rotr v.e 11 ^^^ rotr v.e 25
  let ch := (v.e &&& v.f) ^^^ (not32 v.e &&& v.g)
  let temp1 := add32 (add32 (add32 (add32 v.hh S1) ch) (K256.getD t 0)) (w.getD t 0)
  let S0 := rotr v.a 2 ^^^ rotr v.a 13 ^^^ rotr v.a 22
  let maj := (v.a &&& v.b) ^^^ (v.a &&& v.c) ^^^ (v.b &&& v.c)
  let temp2 := add32 S0 maj
  { hh := v.g, g := v.f, f := v.e, e := add32 v.d temp1,
    d := v.c, c := v.b, b := v.a, a := add32 temp1 temp2 }

/-- The lambda `process_block`: updates the state `h[8]` with the 64 bytes at `block`. -/
def process_block (h : List Nat) (block : List Byte) : List Nat :=
  let w0 := (List.range 16).foldl (fun w i => w.set i (loadWord block i)) (List.replicate 64 0)
  let w := (List.range' 16 48).foldl scheduleStep w0
  let v0 : Vars := { a := h.getD 0 0, b := h.getD 1 0, c := h.getD 2 0, d := h.getD 3 0,
                     e := h.getD 4 0, f := h.getD 5 0, g := h.getD 6 0, hh := h.getD 7 0 }
  let v := (List.range 64).foldl (roundStep w) v0
  [add32 (h.getD 0 0) v.a, add32 (h.getD 1 0) v.b, add32 (h.getD 2 0) v.c,
   add32 (h.getD 3 0) v.d, add32 (h.getD 4 0) v.e, add32 (h.getD 5 0) v.f,
   add32 (h.getD 6 0) v.g, add32 (h.getD 7 0) v.hh]

/-- The cast `(uint8_t)x`. -/
def toByte (x : Nat) : Byte := Fin.ofNat x

/-- Stores the 64-bit `bitLen` big-endian at `last[off .. off+7]`. -/
def storeLen (last : List Byte) (off bitLen : Nat) : List Byte :=
  (((((((last.set off (toByte (bitLen >>> 56))).set (off+1) (toByte (bitLen >>> 48))).set
    (off+2) (toByte (bitLen >>> 40))).set (off+3) (toByte (bitLen >>> 32))).set
    (off+4) (toByte (bitLen >>> 24))).set (off+5) (toByte (bitLen >>> 16))).set
    (off+6) (toByte (bitLen >>> 8))).set (off+7) (toByte bitLen)

/-- The scratch buffer `last[128]` just before the padding blocks are processed. -/
def lastBuf (data : List Byte) : List Byte :=
  let len := data.length
  let fullBlocks := len / 64
  let rem := len % 64
  let last0 : List Byte := List.replicate 128 0
  let last1 := if rem ≠ 0 then memcpy last0 0 (data.drop (fullBlocks*64)) rem else last0
  let last2 := last1.set rem 0x80
  let bitLen := (len * 8) % 2 ^ 64
  if rem ≥ 56 then storeLen last2 120 bitLen else storeLen last2 56 bitLen

/-- The state `h[8]` at the end of `sha256_internal`, before it is written out. -/
def sha256_state (data : List Byte) : List Nat :=
  let h0 : List Nat := [0x6a09e667, 0xbb67ae85, 0x3c6ef372, 0xa54ff53a,
                        0x510e527f, 0x9b05688c, 0x1f83d9ab, 0x5be0cd19]
  let len := data.length
  let fullBlocks := len / 64
  let rem := len % 64
  let h1 := (List.range fullBlocks).foldl (fun h i => process_block h (data.drop (i*64))) h0
  let last := lastBuf data
  if rem ≥ 56 then process_block (process_block h1 last) (last.drop 64)
  else process_block h1 last

/-- The blocks that `sha256_internal` passes to `process_block`, in the order of the calls:
the 64 bytes behind each pointer (`p + i*64` for the full blocks, then `last` and, when
`rem >= 56`, `last + 64`). -/
def sha256_blocks (data : List Byte) : List (List Byte) :=
  let len := data.length
  let fullBlocks := len / 64
  let rem := len % 64
  let full := (List.range fullBlocks).map (fun i => (data.drop (i*64)).take 64)
  let last := lastBuf data
  if rem ≥ 56 then full ++ [last.take 64, (last.drop 64).take 64]
  else full ++ [last.take 64]

/-- The function `sha256_internal(data, len, out)`: the buffer `out` after the call. -/
def sha256_internal (data : List Byte) (out : List Byte) : List Byte :=
  let h := sha256_state data
  (List.range 8).foldl (fun out i =>
    (((out.set (i*4) (toByte (h.getD i 0 >>> 24))).set (i*4+1) (toByte (h.getD i 0 >>> 16))).set
      (i*4+2) (toByte (h.getD i 0 >>> 8))).set (i*4+3) (toByte (h.getD i 0)))
    out

/-- The class `MicroSecurity_Obj`: its only data member is `m_key`. -/
structure MicroSecurity_Obj where
  m_key : List Byte
deriving DecidableEq

/-- The constructor `MicroSecurity_Obj(key = {})`; `none` is the defaulted argument. -/
def MicroSecurity_Obj.new (key : Option (List Byte)) : MicroSecurity_Obj :=
  { m_key := key.getD [] }

/-- The member `setKey`. -/
def MicroSecurity_Obj.setKey (_self : MicroSecurity_Obj) (key : List Byte) : MicroSecurity_Obj :=
  { m_key := key }

/-- The member `getKey`. -/
def MicroSecurity_Obj.getKey (self : MicroSecurity_Obj) : List Byte := self.m_key

/-- The static member `MicroSecurity_Obj::sha256(data, len, out32)`. -/
def sha256 (data : List Byte) (out32 : List Byte) : List Byte := sha256_internal data out32

/-- The loop of `hmac_sha256` that fills `ipad` and `opad` from `k0`. -/
def pads (k0 : List Byte) : List Byte × List Byte :=
  (List.range 64).foldl (fun p i =>
    (p.1.set i (toByte ((k0.getD i 0).val ^^^ 0x36)), p.2.set i (toByte ((k0.getD i 0).val ^^^ 0x5c))))
    (List.replicate 64 0, List.replicate 64 0)

/-- The static member `MicroSecurity_Obj::hmac_sha256(key, keylen, msg, msglen, out32)`. -/
def hmac_sha256 (key msg : List Byte) (out32 : List Byte) : List Byte :=
  let keylen := key.length
  let msglen := msg.length
  let k0 : List Byte := List.replicate 64 0
  let k0 :=
    if keylen > 64 then
      let tk := sha256_internal key (List.replicate 32 0)
      memcpy k0 0 tk 32
    else memcpy k0 0 key keylen
  let ipad := (pads k0).1
  let opad := (pads k0).2
  let ibuf : List Byte := List.replicate (64 + msglen) 0
  let ibuf := memcpy ibuf 0 ipad 64
  let ibuf := if msglen ≠ 0 then memcpy ibuf 64 msg msglen else ibuf
  let inner := sha256_internal ibuf (List.replicate 32 0)
  let obuf : List Byte := List.replicate (64 + 32) 0
  let obuf := memcpy obuf 0 opad 64
  let obuf := memcpy obuf 64 inner 32
  sha256_internal obuf out32

/-- What a call of one of the two authenticators leaves behind: the returned `bool`, the
caller's output buffer (`none` when the pointer is null) and the object's `m_key`. -/
structure AuthResult where
  ret : Bool
  out : Option (List Byte)
  key : List Byte
deriving DecidableEq

/-- The member `computeHMACTrunc(seed, seedLen, out, outTrunc) const`. -/
def MicroSecurity_Obj.computeHMACTrunc (self : MicroSecurity_Obj) (seed : Option (List Byte))
    (out : Option (List Byte)) (outTrunc : Nat) : AuthResult :=
  match seed, out with
  | some seedBytes, some outBuf =>
    if outTrunc = 0 ∨ outTrunc > 32 then { ret := false, out := out, key := self.m_key }
    else if self.m_key.isEmpty then { ret := false, out := out, key := self.m_key }
    else
      let mac := hmac_sha256 self.m_key seedBytes (List.replicate 32 0)
      { ret := true, out := some (memcpy outBuf 0 mac outTrunc), key := self.m_key }
  | _, _ => { ret := false, out := out, key := self.m_key }

/-- The part of `computeSHA256ConcatTrunc` after the secret has been chosen: concatenate,
hash, copy the first `outTrunc` bytes. -/
def concatHashTrunc (self : MicroSecurity_Obj) (seedBytes outBuf : List Byte) (outTrunc : Nat)
    (secret : List Byte) : AuthResult :=
  let seedLen := seedBytes.length
  let secretLen := secret.length
  let buf : List Byte := List.replicate (seedLen + secretLen) 0
  let buf := memcpy buf 0 seedBytes seedLen
  let buf := memcpy buf seedLen secret secretLen
  let hv := sha256_internal buf (List.replicate 32 0)
  { ret := true, out := some (memcpy outBuf 0 hv outTrunc), key := self.m_key }

/-- The member `computeSHA256ConcatTrunc(seed, seedLen, out, outTrunc, extraSecret) const`;
`extraSecret = none` is the null (defaulted) pointer. -/
def MicroSecurity_Obj.computeSHA256ConcatTrunc (self : MicroSecurity_Obj)
    (seed : Option (List Byte)) (out : Option (List Byte)) (outTrunc : Nat)
    (extraSecret : Option (List Byte)) : AuthResult :=
  match seed, out with
  | some seedBytes, some outBuf =>
    if outTrunc = 0 ∨ outTrunc > 32 then { ret := false, out := out, key := self.m_key }
    else if extraSecret.isSome ∧ ¬ (extraSecret.getD []).isEmpty then
      concatHashTrunc self seedBytes outBuf outTrunc (extraSecret.getD [])
    else if ¬ self.m_key.isEmpty then
      concatHashTrunc self seedBytes outBuf outTrunc self.m_key
    else { ret := false, out := out, key := self.m_key }
  | _, _ => { ret := false, out := out, key := self.m_key }

/-- The 32 bytes that `sha256` leaves in a 32-byte buffer. -/
def sha256_digest (data : List Byte) : List Byte := sha256 data (List.replicate 32 0)

/-- The 64-byte key block `K0` in the specification's words: the key followed by zero
bytes when it has at most 64 bytes, otherwise `sha256(key)` followed by 32 zero bytes. -/
def keyBlock (key : List Byte) : List Byte :=
  if key.length ≤ 64 then key ++ List.replicate (64 - key.length) 0
  else sha256_digest key ++ List.replicate 32 0

/-- HMAC in the specification's words: `sha256(opad ‖ sha256(ipad ‖ msg))` with
`ipad[i] = K0[i] xor 0x36` and `opad[i] = K0[i] xor 0x5c`. -/
def hmac_spec (key msg : List Byte) : List Byte :=
  let ipad := (keyBlock key).map (fun b => b ^^^ 0x36)
  let opad := (keyBlock key).map (fun b => b ^^^ 0x5c)
  sha256_digest (opad ++ sha256_digest (ipad ++ msg))

end microsec

/-! ## FIPS 180-4, SHA-256 (the standard the specification refers to) -/

namespace FIPS180

open microsec (Byte)

/-- Section 3.2: `SHR^n(x)`, the right shift. -/
def SHR (n x : Nat) : Nat := x >>> n

/-- Section 3.2: `x << n` on 32-bit words: the left-most `n` bits are discarded. -/
def SHL (n x : Nat) : Nat := (x <<< n) % 2 ^ 32

/-- Section 3.2: `ROTR^n(x) = (x >> n) ∨ (x << 32 - n)`. -/
def ROTR (n x : Nat) : Nat := SHR n x ||| SHL (32 - n) x

/-- Bitwise complement of a 32-bit word. -/
def compl (x : Nat) : Nat := x ^^^ (2 ^ 32 - 1)

/-- Section 4.1.2 (4.2). -/
def Ch (x y z : Nat) : Nat := (x &&& y) ^^^ (compl x &&& z)

/-- Section 4.1.2 (4.3). -/
def Maj (x y z : Nat) : Nat := (x &&& y) ^^^ (x &&& z) ^^^ (y &&& z)

/-- Section 4.1.2 (4.4). -/
def Sigma0 (x : Nat) : Nat := ROTR 2 x ^^^ ROTR 13 x ^^^ ROTR 22 x

/-- Section 4.1.2 (4.5). -/
def Sigma1 (x : Nat) : Nat := ROTR 6 x ^^^ ROTR 11 x ^^^ ROTR 25 x

/-- Section 4.1.2 (4.6). -/
def sigma0 (x : Nat) : Nat := ROTR 7 x ^^^ ROTR 18 x ^^^ SHR 3 x

/-- Section 4.1.2 (4.7). -/
def sigma1 (x : Nat) : Nat := ROTR 17 x ^^^ ROTR 19 x ^^^ SHR 10 x

/-- The first sixty-four primes. -/
def primes64 : List Nat := [
  2, 3, 5, 7, 11, 13, 17, 19, 23, 29, 31, 37, 41, 43, 47, 53,
  59, 61, 67, 71, 73, 79, 83, 89, 97, 101, 103, 107, 109, 113, 127, 131,
  137, 139, 149, 151, 157, 163, 167, 173, 179, 181, 191, 193, 197, 199, 211, 223,
  227, 229, 233, 239, 241, 251, 257, 263, 269, 271, 277, 281, 283, 293, 307, 311]

/-- The integer part of the `e`-th root of `n`, for `n < 2 ^ (e * bits)`, found bit by bit
from the most significant one. -/
def iroot (e bits n : Nat) : Nat :=
  (List.range bits).foldl (fun r i =>
    if (r + 2 ^ (bits - 1 - i)) ^ e ≤ n then r + 2 ^ (bits - 1 - i) else r) 0

/-- Section 4.2.2: the constants `K_0 .. K_63`, the first thirty-two bits of the fractional
parts of the cube roots of the first sixty-four primes. -/
def K : List Nat := primes64.map (fun p => iroot 3 36 (p * 2 ^ 96) % 2 ^ 32)

/-- Section 5.3.3: the initial hash value `H^(0)`, the first thirty-two bits of the
fractional parts of the square roots of the first eight primes. -/
def H0 : List Nat := (primes64.take 8).map (fun p => iroot 2 36 (p * 2 ^ 64) % 2 ^ 32)

/-- Section 5.1.1: the number of zero bytes of the padding, the least `z` with
`len + 1 + z ≡ 56 (mod 64)`. -/
def padZeros (len : Nat) : Nat := (119 - len % 64) % 64

/-- The big-endian bytes of a 64-bit number. -/
def be64 (l : Nat) : List Byte :=
  (List.range 8).map (fun i => Fin.ofNat (l / 256 ^ (7 - i)))

/-- Section 5.1.1: the padded message: the message, the byte `0x80` (a one bit and seven
zero bits), `padZeros` zero bytes and the bit length as a 64-bit big-endian number. -/
def pad (M : List Byte) : List Byte :=
  M ++ [0x80] ++ List.replicate (padZeros M.length) 0 ++ be64 (8 * M.length)

/-- Section 5.2.1: block `i` of the padded message (sixty-four bytes). -/
def block (P : List Byte) (i : Nat) : List Byte := (P.drop (64 * i)).take 64

/-- Section 5.2.1: the big-endian 32-bit word made of four bytes. -/
def word (b : List Byte) : Nat :=
  b.foldl (fun acc x => acc * 256 + x.val) 0

/-- Section 5.2.1: the sixteen words `M_0 .. M_15` of a block. -/
def words (B : List Byte) : List Nat :=
  (List.range 16).map (fun j => word ((B.drop (4 * j)).take 4))

/-- Section 6.2.2 step 1: extends the schedule `W_0 .. W_(t-1)` by
`W_t = sigma1 (W_(t-2)) + W_(t-7) + sigma0 (W_(t-15)) + W_(t-16)`, `n` times. -/
def extend : Nat → List Nat → List Nat
  | 0, W => W
  | n + 1, W =>
    let t := W.length
    extend n (W ++ [(sigma1 (W.getD (t - 2) 0) + W.getD (t - 7) 0
                      + sigma0 (W.getD (t - 15) 0) + W.getD (t - 16) 0) % 2 ^ 32])

/-- Section 6.2.2 step 1: the message schedule `W_0 .. W_63`. -/
def schedule (B : List Byte) : List Nat := extend 48 (words B)

/-- Section 6.2.2 step 3: one round on the working variables `[a, b, c, d, e, f, g, h]`
with the constant `K_t` and the schedule word `W_t`. -/
def round (v : List Nat) (kw : Nat × Nat) : List Nat :=
  match v with
  | [a, b, c, d, e, f, g, h] =>
    let T1 := (h + Sigma1 e + Ch e f g + kw.1 + kw.2) % 2 ^ 32
    let T2 := (Sigma0 a + Maj a b c) % 2 ^ 32
    [(T1 + T2) % 2 ^ 32, a, b, c, (d + T1) % 2 ^ 32, e, f, g]
  | _ => v

/-- Section 6.2.2: the hash computation for one block: from `H^(i-1)` to `H^(i)`. -/
def compress (H : List Nat) (B : List Byte) : List Nat :=
  List.zipWith (fun x y => (x + y) % 2 ^ 32) ((K.zip (schedule B)).foldl round H) H

/-- The big-endian bytes of a 32-bit word. -/
def be32 (x : Nat) : List Byte :=
  [Fin.ofNat (x / 2 ^ 24), Fin.ofNat (x / 2 ^ 16), Fin.ofNat (x / 2 ^ 8), Fin.ofNat x]

/-- Section 6.2: the SHA-256 message digest, defined for messages of fewer than `2^64`
bits: pad, parse into `N` blocks, run the hash computation from `H^(0)` over the blocks, and
concatenate the eight words of `H^(N)`. -/
def SHA256 (M : List Byte) : Option (List Byte) :=
  if 8 * M.length < 2 ^ 64 then
    let P := pad M
    let HN := ((List.range (P.length / 64)).map (block P)).foldl compress H0
    some (HN.map be32).flatten
  else none

end FIPS180

/-! ## RFC 2104, HMAC over SHA-256 (the reference the specification's test vectors use) -/

namespace RFC2104

open microsec (Byte)

/-- Section 2: keys longer than the block size `B = 64` are first hashed; the key is then
extended with zeros to `B` bytes. -/
def K0 (key : List Byte) : Option (List Byte) :=
  (if key.length > 64 then FIPS180.SHA256 key else some key).map
    (fun k => k ++ List.replicate (64 - k.length) 0)

/-- Section 2: `H(K XOR opad, H(K XOR ipad, text))`, `ipad` the byte `0x36` and `opad` the
byte `0x5C`, each repeated `B` times. -/
def HMAC (key text : List Byte) : Option (List Byte) :=
  (K0 key).bind (fun k =>
    (FIPS180.SHA256 (k.map (fun b => b ^^^ 0x36) ++ text)).bind (fun inner =>
      FIPS180.SHA256 (k.map (fun b => b ^^^ 0x5c) ++ inner)))

end RFC2104


/-! ## The callback `ZLGKey` of `src/ZLGkey.cpp` -/

/-- The fixed key `g_Key`. -/
def g_Key : List microsec.Byte := [
  0x12, 0x34, 0x56, 0x78, 0x9A, 0xBC, 0xDE, 0xF0,
  0x11, 0x22, 0x33, 0x44, 0x55, 0x66, 0x77, 0x88]

/-- The enumerator `SecLevel_1` of `SecLevel_t`. -/
def microsec.SecLevel_1 : Nat := 0x11

/-- The enumerator `SecLevel_2` of `SecLevel_t`. -/
def microsec.SecLevel_2 : Nat := 0x71

/-- The enumerator `SecLevel_3` of `SecLevel_t`. -/
def microsec.SecLevel_3 : Nat := 0xD1

/-- What a call of `ZLGKey` leaves behind: the returned `int`, the buffer `keyArray` and
the value `*keyLength` (`none` when the pointer is null). -/
structure ZLGKeyResult where
  ret : Int
  keyArray : Option (List microsec.Byte)
  keyLength : Option Nat
deriving DecidableEq

/-- The function `ZLGKey(seedArray, seedLength, securityLevel, variantName, keyArray,
keyLength)`; `seedArray` is the list of the `seedLength` bytes behind the pointer. -/
def ZLGKey (seedArray : Option (List microsec.Byte)) (securityLevel : Nat)
    (_variantName : Option String) (keyArray : Option (List microsec.Byte))
    (keyLength : Option Nat) : ZLGKeyResult :=
  match seedArray, keyArray, keyLength with
  | some seed, some _, some _ =>
    if seed.length = 0 then { ret := -1, keyArray := keyArray, keyLength := keyLength }
    else
      let sec := microsec.MicroSecurity_Obj.new (some g_Key)
      if securityLevel = microsec.SecLevel_1 then
        let r := sec.computeHMACTrunc seedArray keyArray 16
        if ¬ r.ret then { ret := -3, keyArray := r.out, keyLength := some 16 }
        else { ret := 0, keyArray := r.out, keyLength := some 16 }
      else if securityLevel = microsec.SecLevel_2 then
        let r := sec.computeSHA256ConcatTrunc seedArray keyArray 32 none
        if ¬ r.ret then { ret := -3, keyArray := r.out, keyLength := some 32 }
        else { ret := 0, keyArray := r.out, keyLength := some 32 }
      else { ret := -2, keyArray := keyArray, keyLength := keyLength }
  | _, _, _ => { ret := -1, keyArray := keyArray, keyLength := keyLength }

/-! ## Theorems -/

namespace microsec

/-! ### Arithmetic on words -/

theorem add32_assoc4 (a b c d : Nat) :
    add32 (add32 (add32 a b) c) d = (d + c + b + a) % 2 ^ 32 := by
  unfold add32; omega

theorem add32_assoc5 (a b c d e : Nat) :
    add32 (add32 (add32 (add32 a b) c) d) e = (a + b + c + d + e) % 2 ^ 32 := by
  unfold add32; omega

theorem rotr_eq_ROTR (x n : Nat) : rotr x n = FIPS180.ROTR n x := rfl

theorem loadWord_bytes (b0 b1 b2 b3 : Byte) :
    (b0.val <<< 24) ||| (b1.val <<< 16) ||| (b2.val <<< 8) ||| b3.val
      = ((b0.val * 256 + b1.val) * 256 + b2.val) * 256 + b3.val := by
  have h1 := b1.isLt
  have h2 := b2.isLt
  have h3 := b3.isLt
  have e1 : 2 ^ 24 * b0.val + b1.val * 2 ^ 16 = 2 ^ 24 * b0.val ||| b1.val * 2 ^ 16 :=
    Nat.mul_add_lt_is_or (by omega) _
  have e2 : 2 ^ 16 * (b0.val * 256 + b1.val) + b2.val * 2 ^ 8
      = 2 ^ 16 * (b0.val * 256 + b1.val) ||| b2.val * 2 ^ 8 :=
    Nat.mul_add_lt_is_or (by omega) _
  have e3 : 2 ^ 8 * ((b0.val * 256 + b1.val) * 256 + b2.val) + b3.val
      = 2 ^ 8 * ((b0.val * 256 + b1.val) * 256 + b2.val) ||| b3.val :=
    Nat.mul_add_lt_is_or (by omega) _
  have a1 : 2 ^ 24 * b0.val + b1.val * 2 ^ 16 = 2 ^ 16 * (b0.val * 256 + b1.val) := by omega
  have a2 : 2 ^ 16 * (b0.val * 256 + b1.val) + b2.val * 2 ^ 8
      = 2 ^ 8 * ((b0.val * 256 + b1.val) * 256 + b2.val) := by omega
  have a3 : 2 ^ 8 * ((b0.val * 256 + b1.val) * 256 + b2.val) + b3.val
      = ((b0.val * 256 + b1.val) * 256 + b2.val) * 256 + b3.val := by omega
  rw [Nat.shiftLeft_eq, Nat.shiftLeft_eq, Nat.shiftLeft_eq, Nat.mul_comm b0.val, ← e1, a1, ← e2,
    a2, ← e3, a3]

/-! ### Arrays as lists -/

theorem set_append_cons {α : Type} (A : List α) (n : Nat) (hA : A.length = n) (b x : α)
    (r : List α) : (A ++ b :: r).set n x = A ++ x :: r := by
  subst hA
  induction A with
  | nil => rfl
  | cons a A ih => simp [ih]

theorem foldl_set_range {α : Type} (f : Nat → α) (n : Nat) (l : List α) (h : n ≤ l.length) :
    (List.range n).foldl (fun a i => a.set i (f i)) l = (List.range n).map f ++ l.drop n := by
  induction n with
  | zero => simp
  | succ n ih =>
    have hn : n < l.length := by omega
    rw [List.range_succ, List.foldl_append, ih (by omega), List.map_append]
    simp only [List.foldl_cons, List.foldl_nil, List.map_cons, List.map_nil]
    have hl : ((List.range n).map f).length = n := by simp
    rw [List.drop_eq_getElem_cons hn]
    rw [set_append_cons _ _ hl]
    simp

theorem take4_drop (l : List Byte) (k : Nat) (h : k + 4 ≤ l.length) :
    (l.drop k).take 4 = [l.getD k 0, l.getD (k+1) 0, l.getD (k+2) 0, l.getD (k+3) 0] := by
  induction k generalizing l with
  | zero =>
    match l, h with
    | a :: b :: c :: d :: r, _ => simp
  | succ k ih =>
    match l, h with
    | a :: l, h =>
      simp only [List.length_cons] at h
      simpa using ih l (by omega)

theorem word_four (b0 b1 b2 b3 : Byte) :
    FIPS180.word [b0, b1, b2, b3] = ((b0.val * 256 + b1.val) * 256 + b2.val) * 256 + b3.val := by
  simp [FIPS180.word]

theorem loadWord_eq_word (blk : List Byte) (j : Nat) (hj : j < 16) (hb : 64 ≤ blk.length) :
    loadWord blk j = FIPS180.word (((blk.take 64).drop (4 * j)).take 4) := by
  rw [take4_drop _ _ (by simp; omega), word_four, ← loadWord_bytes]
  have e : ∀ i, i < 64 → (List.take 64 blk).getD i 0 = blk.getD i 0 := by
    intro i hi
    simp [List.getD_eq_getElem?_getD, List.getElem?_take, hi]
  rw [e _ (by omega), e _ (by omega), e _ (by omega), e _ (by omega)]
  simp only [loadWord, byteAt]
  rw [Nat.mul_comm j 4]

theorem words_eq (blk : List Byte) (hb : 64 ≤ blk.length) :
    (List.range 16).map (loadWord blk) = FIPS180.words (blk.take 64) := by
  unfold FIPS180.words
  apply List.map_congr_left
  intro j hj
  exact loadWord_eq_word blk j (List.mem_range.mp hj) hb

/-! ### The message schedule -/

theorem scheduleStep_append (W : List Nat) (m : Nat) (hW : 16 ≤ W.length) :
    scheduleStep (W ++ List.replicate (m + 1) 0) W.length
      = (W ++ [(FIPS180.sigma1 (W.getD (W.length - 2) 0) + W.getD (W.length - 7) 0
          + FIPS180.sigma0 (W.getD (W.length - 15) 0) + W.getD (W.length - 16) 0) % 2 ^ 32])
        ++ List.replicate m 0 := by
  unfold scheduleStep
  simp only [List.replicate_succ]
  rw [set_append_cons _ _ rfl]
  rw [List.getD_append _ _ _ _ (by omega : W.length - 15 < W.length),
    List.getD_append _ _ _ _ (by omega : W.length - 2 < W.length),
    List.getD_append _ _ _ _ (by omega : W.length - 16 < W.length),
    List.getD_append _ _ _ _ (by omega : W.length - 7 < W.length)]
  rw [add32_assoc4]
  simp [FIPS180.sigma0, FIPS180.sigma1, rotr_eq_ROTR, FIPS180.SHR]

theorem schedule_loop (n m : Nat) (W : List Nat) (s : Nat) (hs : W.length = s) (h16 : 16 ≤ s) :
    (List.range' s n).foldl scheduleStep (W ++ List.replicate (n + m) 0)
      = FIPS180.extend n W ++ List.replicate m 0 := by
  induction n generalizing W s with
  | zero => simp [FIPS180.extend]
  | succ n ih =>
    subst hs
    rw [List.range'_succ, List.foldl_cons, show n + 1 + m = (n + m) + 1 by omega,
      scheduleStep_append W (n + m) h16, FIPS180.extend]
    exact ih _ _ (by simp) (by omega)

/-! ### The rounds -/

theorem K256_eq : K256 = FIPS180.K := by decide!

theorem not32_eq (x : Nat) : not32 x = FIPS180.compl x := by
  unfold not32 FIPS180.compl
  rw [Nat.xor_comm]
  rfl

theorem roundStep_eq (w : List Nat) (v : Vars) (t : Nat) :
    (roundStep w v t).toList = FIPS180.round v.toList (FIPS180.K.getD t 0, w.getD t 0) := by
  simp only [roundStep, Vars.toList, FIPS180.round, add32_assoc5, K256_eq, not32_eq]
  simp [add32, FIPS180.Sigma0, FIPS180.Sigma1, FIPS180.Ch, FIPS180.Maj, rotr_eq_ROTR]

theorem rounds_loop (w : List Nat) (ts : List Nat) (v : Vars) :
    (ts.foldl (roundStep w) v).toList
      = (ts.map (fun t => (FIPS180.K.getD t 0, w.getD t 0))).foldl FIPS180.round v.toList := by
  induction ts generalizing v with
  | nil => rfl
  | cons t ts ih => simp only [List.foldl_cons, List.map_cons, ih, roundStep_eq]

theorem extend_length (n : Nat) (W : List Nat) : (FIPS180.extend n W).length = W.length + n := by
  induction n generalizing W with
  | zero => rfl
  | succ n ih => rw [FIPS180.extend, ih]; simp; omega

theorem schedule_length (B : List Byte) : (FIPS180.schedule B).length = 64 := by
  simp [FIPS180.schedule, extend_length, FIPS180.words]

theorem zip_K (w : List Nat) (hw : w.length = 64) :
    (List.range 64).map (fun t => (FIPS180.K.getD t 0, w.getD t 0)) = FIPS180.K.zip w := by
  have hK : FIPS180.K.length = 64 := by decide!
  apply List.ext_getElem
  · simp [hw, hK]
  · intro i h1 h2
    have hi : i < 64 := by simpa using h1
    simp [List.getD_eq_getElem?_getD, List.getElem?_eq_getElem, hw, hK, hi]

/-! ### One block -/

theorem process_block_schedule (blk : List Byte) (hb : 64 ≤ blk.length) :
    (List.range' 16 48).foldl scheduleStep
        ((List.range 16).foldl (fun w i => w.set i (loadWord blk i)) (List.replicate 64 0))
      = FIPS180.schedule (blk.take 64) := by
  rw [foldl_set_range _ _ _ (by simp), words_eq blk hb, List.drop_replicate]
  have h := schedule_loop 48 0 (FIPS180.words (blk.take 64)) 16 (by simp [FIPS180.words])
    (Nat.le_refl _)
  simpa [FIPS180.schedule] using h

theorem process_block_eq (h : List Nat) (blk : List Byte) (hh : h.length = 8)
    (hb : 64 ≤ blk.length) : process_block h blk = FIPS180.compress h (blk.take 64) := by
  match h, hh with
  | [h0, h1, h2, h3, h4, h5, h6, h7], _ =>
    unfold process_block FIPS180.compress
    simp only [process_block_schedule blk hb]
    rw [← zip_K _ (schedule_length _), ← List.foldl_map]
    have key := rounds_loop (FIPS180.schedule (blk.take 64)) (List.range 64)
      { a := h0, b := h1, c := h2, d := h3, e := h4, f := h5, g := h6, hh := h7 }
    simp only [Vars.toList] at key
    simp only [List.getD_cons_zero, List.getD_cons_succ]
    rw [List.foldl_map, ← key]
    simp [add32, Nat.add_comm]

theorem process_block_length (h : List Nat) (blk : List Byte) :
    (process_block h blk).length = 8 := rfl

/-! ### The padding buffer -/

theorem be64_eq (L : Nat) :
    FIPS180.be64 L = [toByte (L >>> 56), toByte (L >>> 48), toByte (L >>> 40), toByte (L >>> 32),
      toByte (L >>> 24), toByte (L >>> 16), toByte (L >>> 8), toByte L] := by
  simp only [Nat.shiftRight_eq_div_pow]
  simp [FIPS180.be64, toByte, List.range, List.range.loop]

theorem storeLen_append (A : List Byte) (off : Nat) (hA : A.length = off) (m L : Nat) :
    storeLen (A ++ List.replicate (m + 8) 0) off L
      = A ++ FIPS180.be64 L ++ List.replicate m 0 := by
  subst hA
  rw [be64_eq]
  induction A with
  | nil => simp [storeLen, List.replicate_succ]
  | cons a A ih =>
    simp only [storeLen, List.cons_append, List.length_cons, List.set_cons_succ,
      Nat.add_right_comm _ 1] at ih ⊢
    rw [ih]

theorem lastBuf_eq (data : List Byte) (hlen : data.length * 8 < 2 ^ 64) :
    lastBuf data = data.drop (data.length / 64 * 64) ++ [0x80]
      ++ List.replicate ((if data.length % 64 ≥ 56 then 119 else 55) - data.length % 64) 0
      ++ FIPS180.be64 (8 * data.length)
      ++ List.replicate (if data.length % 64 ≥ 56 then 0 else 64) 0 := by
  have htl : (data.drop (data.length / 64 * 64)).length = data.length % 64 := by
    rw [List.length_drop]; omega
  have hr : data.length % 64 < 64 := Nat.mod_lt _ (by decide)
  unfold lastBuf
  have hlen2 : 8 * data.length < 2 ^ 64 := by omega
  simp only [Nat.mul_comm data.length 8, Nat.mod_eq_of_lt hlen2]
  generalize data.drop (data.length / 64 * 64) = tl at htl ⊢
  generalize data.length % 64 = r at htl hr ⊢
  generalize 8 * data.length = L
  have h1 : (if r ≠ 0 then memcpy (List.replicate 128 0) 0 tl r else List.replicate 128 0)
      = tl ++ List.replicate (128 - r) 0 := by
    split
    · simp only [memcpy, List.take_zero, List.nil_append, Nat.zero_add, List.drop_replicate]
      rw [List.take_of_length_le (by omega)]
    · have : tl = [] := List.length_eq_zero.mp (by omega)
      subst this
      simp_all
  rw [h1]
  have h2 : (tl ++ List.replicate (128 - r) 0).set r 0x80
      = tl ++ 0x80 :: List.replicate (127 - r) 0 := by
    rw [show 128 - r = (127 - r) + 1 by omega, List.replicate_succ, set_append_cons _ _ htl]
  rw [h2]
  split
  · rename_i h56
    have h3 : tl ++ 0x80 :: List.replicate (127 - r) 0
        = (tl ++ [0x80] ++ List.replicate (119 - r) 0) ++ List.replicate (0 + 8) 0 := by
      rw [show 127 - r = (119 - r) + (0 + 8) by omega, List.replicate_add]
      simp
    rw [h3, storeLen_append _ _ (by simp; omega)]
  · rename_i h56
    have h3 : tl ++ 0x80 :: List.replicate (127 - r) 0
        = (tl ++ [0x80] ++ List.replicate (55 - r) 0) ++ List.replicate (64 + 8) 0 := by
      rw [show 127 - r = (55 - r) + (64 + 8) by omega, List.replicate_add]
      simp
    rw [h3, storeLen_append _ _ (by simp; omega)]

/-! ### The blocks of the padded message -/

theorem block_of_data (data S : List Byte) (i : Nat) (hi : i < data.length / 64) :
    (data.drop (i * 64)).take 64 = FIPS180.block (data ++ S) i := by
  unfold FIPS180.block
  rw [Nat.mul_comm 64 i, List.drop_append_of_le_length (by omega),
    List.take_append_of_le_length (by rw [List.length_drop]; omega)]

theorem full_blocks (data S : List Byte) (h0 : List Nat) (hh : h0.length = 8) (n : Nat)
    (hn : n ≤ data.length / 64) :
    (List.range n).foldl (fun h i => process_block h (data.drop (i * 64))) h0
        = ((List.range n).map (FIPS180.block (data ++ S))).foldl FIPS180.compress h0
      ∧ ((List.range n).foldl (fun h i => process_block h (data.drop (i * 64))) h0).length = 8 := by
  induction n with
  | zero => exact ⟨rfl, hh⟩
  | succ n ih =>
    obtain ⟨e, l⟩ := ih (by omega)
    rw [List.range_succ, List.foldl_append, List.map_append, List.foldl_append]
    simp only [List.foldl_cons, List.foldl_nil, List.map_cons, List.map_nil]
    refine ⟨?_, process_block_length _ _⟩
    rw [process_block_eq _ _ l (by rw [List.length_drop]; omega), block_of_data data S n (by omega),
      e]

theorem pad_length_div (data : List Byte) :
    (FIPS180.pad data).length / 64
      = data.length / 64 + (if data.length % 64 ≥ 56 then 2 else 1) := by
  simp only [FIPS180.pad, FIPS180.padZeros, FIPS180.be64, List.length_append, List.length_map,
    List.length_range, List.length_replicate, List.length_singleton]
  split <;> omega

theorem pad_drop (data : List Byte) :
    (FIPS180.pad data).drop (64 * (data.length / 64))
      = data.drop (data.length / 64 * 64) ++ [0x80]
        ++ List.replicate ((if data.length % 64 ≥ 56 then 119 else 55) - data.length % 64) 0
        ++ FIPS180.be64 (8 * data.length) := by
  have hz : FIPS180.padZeros data.length
      = (if data.length % 64 ≥ 56 then 119 else 55) - data.length % 64 := by
    unfold FIPS180.padZeros
    split <;> omega
  simp only [FIPS180.pad, hz, List.append_assoc]
  rw [List.drop_append_of_le_length (by omega), Nat.mul_comm]

/-! ### The whole message -/

theorem H0_eq : FIPS180.H0 = [0x6a09e667, 0xbb67ae85, 0x3c6ef372, 0xa54ff53a,
    0x510e527f, 0x9b05688c, 0x1f83d9ab, 0x5be0cd19] := by decide!

theorem sha256_state_eq (data : List Byte) (hlen : data.length * 8 < 2 ^ 64) :
    sha256_state data
        = ((List.range ((FIPS180.pad data).length / 64)).map
            (FIPS180.block (FIPS180.pad data))).foldl FIPS180.compress FIPS180.H0
      ∧ (sha256_state data).length = 8 := by
  rw [H0_eq]
  have hS : FIPS180.pad data = data ++ ([0x80] ++ List.replicate (FIPS180.padZeros data.length) 0
      ++ FIPS180.be64 (8 * data.length)) := by simp [FIPS180.pad]
  obtain ⟨e, l⟩ := full_blocks data ([0x80] ++ List.replicate (FIPS180.padZeros data.length) 0
      ++ FIPS180.be64 (8 * data.length)) [0x6a09e667, 0xbb67ae85, 0x3c6ef372, 0xa54ff53a,
    0x510e527f, 0x9b05688c, 0x1f83d9ab, 0x5be0cd19] rfl (data.length / 64) (Nat.le_refl _)
  rw [← hS] at e
  have hQ := pad_drop data
  have hL := lastBuf_eq data hlen
  have htl : (data.drop (data.length / 64 * 64)).length = data.length % 64 := by
    rw [List.length_drop]; omega
  have hb8 : (FIPS180.be64 (8 * data.length)).length = 8 := by simp [FIPS180.be64]
  have hr : data.length % 64 < 64 := Nat.mod_lt _ (by decide)
  rw [pad_length_div]
  unfold sha256_state
  simp only []
  change (if data.length % 64 ≥ 56 then
      process_block (process_block ((List.range (data.length / 64)).foldl
        (fun h i => process_block h (data.drop (i * 64))) [0x6a09e667, 0xbb67ae85, 0x3c6ef372,
          0xa54ff53a, 0x510e527f, 0x9b05688c, 0x1f83d9ab, 0x5be0cd19]) (lastBuf data))
        ((lastBuf data).drop 64)
    else process_block ((List.range (data.length / 64)).foldl
        (fun h i => process_block h (data.drop (i * 64))) [0x6a09e667, 0xbb67ae85, 0x3c6ef372,
          0xa54ff53a, 0x510e527f, 0x9b05688c, 0x1f83d9ab, 0x5be0cd19]) (lastBuf data)) = _ ∧ _
  generalize (List.range (data.length / 64)).foldl
    (fun h i => process_block h (data.drop (i * 64))) [0x6a09e667, 0xbb67ae85, 0x3c6ef372,
      0xa54ff53a, 0x510e527f, 0x9b05688c, 0x1f83d9ab, 0x5be0cd19] = h1 at e l ⊢
  by_cases h56 : data.length % 64 ≥ 56
  · simp only [h56, if_true] at hQ hL ⊢
    refine ⟨?_, process_block_length _ _⟩
    have hlast : lastBuf data = (FIPS180.pad data).drop (64 * (data.length / 64)) := by
      rw [hL, hQ]; simp
    have hlen128 : (lastBuf data).length = 128 := by
      rw [hL]; simp [htl, hb8]; omega
    rw [List.range_succ, List.range_succ, List.map_append, List.map_append, List.foldl_append,
      List.foldl_append, ← e]
    simp only [List.foldl_cons, List.foldl_nil, List.map_cons, List.map_nil]
    rw [process_block_eq _ _ (process_block_length _ _) (by rw [List.length_drop]; omega),
      process_block_eq _ _ l (by omega)]
    unfold FIPS180.block
    rw [hlast, List.drop_drop]
    congr 3
  · simp only [h56, if_false] at hQ hL ⊢
    refine ⟨?_, process_block_length _ _⟩
    have hlen64 : ((FIPS180.pad data).drop (64 * (data.length / 64))).length = 64 := by
      rw [hQ]; simp [htl, hb8]; omega
    have hlast : lastBuf data
        = (FIPS180.pad data).drop (64 * (data.length / 64)) ++ List.replicate 64 0 := by
      rw [hL, hQ]
    rw [List.range_succ, List.map_append, List.foldl_append, ← e]
    simp only [List.foldl_cons, List.foldl_nil, List.map_cons, List.map_nil]
    rw [process_block_eq _ _ l (by rw [hlast]; simp),
      hlast, List.take_append_of_le_length (by omega)]
    rfl

/-! ### Writing the digest -/

theorem set4_append (A : List Byte) (n : Nat) (hA : A.length = n) (x1 x2 x3 x4 : Byte)
    (rest : List Byte) (hr : 4 ≤ rest.length) :
    ((((A ++ rest).set n x1).set (n + 1) x2).set (n + 2) x3).set (n + 3) x4
      = A ++ [x1, x2, x3, x4] ++ rest.drop 4 := by
  subst hA
  induction A with
  | nil =>
    match rest, hr with
    | a :: b :: c :: d :: r, _ => simp
  | cons a A ih =>
    simp only [List.cons_append, List.length_cons, List.set_cons_succ,
      Nat.add_right_comm _ 1] at ih ⊢
    rw [ih]

theorem flatten_be32_length (g : Nat → Nat) (n : Nat) :
    (((List.range n).map (fun i => FIPS180.be32 (g i))).flatten).length = n * 4 := by
  induction n with
  | zero => rfl
  | succ n ih =>
    rw [List.range_succ, List.map_append, List.flatten_append, List.length_append, ih]
    simp [FIPS180.be32]
    omega

theorem digest_loop (h : List Nat) (out : List Byte) (n : Nat) (hn : 4 * n ≤ out.length) :
    (List.range n).foldl (fun out i =>
      (((out.set (i*4) (toByte (h.getD i 0 >>> 24))).set (i*4+1) (toByte (h.getD i 0 >>> 16))).set
        (i*4+2) (toByte (h.getD i 0 >>> 8))).set (i*4+3) (toByte (h.getD i 0))) out
      = ((List.range n).map (fun i => FIPS180.be32 (h.getD i 0))).flatten ++ out.drop (4 * n) := by
  induction n with
  | zero => simp
  | succ n ih =>
    rw [List.range_succ, List.foldl_append, ih (by omega), List.map_append, List.flatten_append]
    simp only [List.foldl_cons, List.foldl_nil, List.map_cons, List.map_nil]
    rw [set4_append _ _ (flatten_be32_length _ n) _ _ _ _ _
      (by rw [List.length_drop]; omega), List.drop_drop]
    simp [FIPS180.be32, toByte, Nat.shiftRight_eq_div_pow, Nat.mul_add, Nat.add_comm]

theorem map_getD_eight (h : List Nat) (hh : h.length = 8) (f : Nat → List Byte) :
    (List.range 8).map (fun i => f (h.getD i 0)) = h.map f := by
  match h, hh with
  | [h0, h1, h2, h3, h4, h5, h6, h7], _ => rfl

theorem sha256_internal_eq (data out : List Byte) (hlen : data.length * 8 < 2 ^ 64)
    (hout : 32 ≤ out.length) :
    FIPS180.SHA256 data = some ((sha256_internal data out).take 32)
      ∧ (sha256_internal data out).drop 32 = out.drop 32
      ∧ (sha256_internal data out).length = out.length := by
  obtain ⟨e, l⟩ := sha256_state_eq data hlen
  have hd : sha256_internal data out
      = ((sha256_state data).map FIPS180.be32).flatten ++ out.drop 32 := by
    unfold sha256_internal
    simp only []
    rw [digest_loop _ _ 8 (by omega), map_getD_eight _ l]
  have h32 : (((sha256_state data).map FIPS180.be32).flatten).length = 32 := by
    match sha256_state data, l with
    | [h0, h1, h2, h3, h4, h5, h6, h7], _ => rfl
  refine ⟨?_, ?_, ?_⟩
  · rw [hd, List.take_left' h32, FIPS180.SHA256, if_pos (by omega), e]
  · rw [hd, List.drop_left' h32]
  · rw [hd, List.length_append, h32, List.length_drop]; omega

theorem sha256_state_length (data : List Byte) : (sha256_state data).length = 8 := by
  unfold sha256_state
  simp only []
  split <;> rfl

theorem sha256_internal_out (data out : List Byte) (hout : 32 ≤ out.length) :
    sha256_internal data out
      = ((sha256_state data).map FIPS180.be32).flatten ++ out.drop 32 := by
  unfold sha256_internal
  simp only []
  rw [digest_loop _ _ 8 (by omega), map_getD_eight _ (sha256_state_length data)]

theorem sha256_digest_eq (data : List Byte) :
    sha256_digest data = ((sha256_state data).map FIPS180.be32).flatten := by
  unfold sha256_digest sha256
  rw [sha256_internal_out _ _ (by simp)]
  simp

theorem sha256_digest_length (data : List Byte) : (sha256_digest data).length = 32 := by
  rw [sha256_digest_eq]
  match sha256_state data, sha256_state_length data with
  | [h0, h1, h2, h3, h4, h5, h6, h7], _ => rfl

theorem sha256_internal_frame (data out : List Byte) (hout : 32 ≤ out.length) :
    sha256_internal data out = sha256_digest data ++ out.drop 32 := by
  rw [sha256_internal_out _ _ hout, sha256_digest_eq]

/-! ### SHA-256 against FIPS 180-4 -/

/-- C1: for every byte sequence of fewer than `2^61` bytes and every output buffer of at
least 32 bytes, `sha256` leaves the FIPS 180-4 SHA-256 digest of the data in the first 32
bytes of the buffer and writes nothing else. -/
theorem C1_sha256_is_FIPS180 (data out32 : List Byte) (hlen : data.length < 2 ^ 61)
    (hout : 32 ≤ out32.length) :
    FIPS180.SHA256 data = some ((sha256 data out32).take 32)
      ∧ (sha256 data out32).drop 32 = out32.drop 32
      ∧ (sha256 data out32).length = out32.length :=
  sha256_internal_eq data out32 (by omega) hout

theorem C1_sha256_is_FIPS180_witness :
    ([] : List Byte).length < 2 ^ 61 ∧ 32 ≤ (List.replicate 40 (7 : Byte)).length
      ∧ FIPS180.SHA256 [] = some ((sha256 [] (List.replicate 40 7)).take 32)
      ∧ (sha256 [] (List.replicate 40 7)).drop 32 = (List.replicate 40 (7 : Byte)).drop 32
      ∧ (sha256 [] (List.replicate 40 7)).length = (List.replicate 40 (7 : Byte)).length :=
  ⟨by decide, by decide, C1_sha256_is_FIPS180 [] (List.replicate 40 7) (by decide) (by decide)⟩

/-- C3: the known-answer vectors: for every output buffer of at least 32 bytes, `sha256`
of the empty input writes `e3b0c442...7852b855` and `sha256` of the bytes `61 62 63`
writes `ba7816bf...f20015ad` into its first 32 bytes, and leaves the rest as it was. -/
theorem C3_sha256_known_answers (out32 : List Byte) (hout : 32 ≤ out32.length) :
    sha256 [] out32
        = [0xe3,0xb0,0xc4,0x42,0x98,0xfc,0x1c,0x14,0x9a,0xfb,0xf4,0xc8,0x99,0x6f,0xb9,0x24,
           0x27,0xae,0x41,0xe4,0x64,0x9b,0x93,0x4c,0xa4,0x95,0x99,0x1b,0x78,0x52,0xb8,0x55]
          ++ out32.drop 32
      ∧ sha256 [0x61, 0x62, 0x63] out32
        = [0xba,0x78,0x16,0xbf,0x8f,0x01,0xcf,0xea,0x41,0x41,0x40,0xde,0x5d,0xae,0x22,0x23,
           0xb0,0x03,0x61,0xa3,0x96,0x17,0x7a,0x9c,0xb4,0x10,0xff,0x61,0xf2,0x00,0x15,0xad]
          ++ out32.drop 32 := by
  unfold sha256
  rw [sha256_internal_frame _ _ hout, sha256_internal_frame _ _ hout]
  refine ⟨congrArg (· ++ out32.drop 32) ?_, congrArg (· ++ out32.drop 32) ?_⟩
  · decide!
  · decide!

theorem C3_sha256_known_answers_witness :
    32 ≤ (List.replicate 32 (0 : Byte)).length
      ∧ sha256 [] (List.replicate 32 0)
        = [0xe3,0xb0,0xc4,0x42,0x98,0xfc,0x1c,0x14,0x9a,0xfb,0xf4,0xc8,0x99,0x6f,0xb9,0x24,
           0x27,0xae,0x41,0xe4,0x64,0x9b,0x93,0x4c,0xa4,0x95,0x99,0x1b,0x78,0x52,0xb8,0x55]
          ++ (List.replicate 32 (0 : Byte)).drop 32
      ∧ sha256 [0x61, 0x62, 0x63] (List.replicate 32 0)
        = [0xba,0x78,0x16,0xbf,0x8f,0x01,0xcf,0xea,0x41,0x41,0x40,0xde,0x5d,0xae,0x22,0x23,
           0xb0,0x03,0x61,0xa3,0x96,0x17,0x7a,0x9c,0xb4,0x10,0xff,0x61,0xf2,0x00,0x15,0xad]
          ++ (List.replicate 32 (0 : Byte)).drop 32 :=
  ⟨by decide, C3_sha256_known_answers (List.replicate 32 0) (by decide)⟩

/-! ### HMAC -/

theorem foldl_pair {α β : Type} (F : α → Nat → α) (G : β → Nat → β) (ts : List Nat) (a : α)
    (b : β) :
    ts.foldl (fun p i => (F p.1 i, G p.2 i)) (a, b) = (ts.foldl F a, ts.foldl G b) := by
  induction ts generalizing a b with
  | nil => rfl
  | cons t ts ih => simp only [List.foldl_cons, ih]

theorem map_range_getD (l : List Byte) (n : Nat) (hn : l.length = n) (f : Byte → Byte) :
    (List.range n).map (fun i => f (l.getD i 0)) = l.map f := by
  subst hn
  apply List.ext_getElem
  · simp
  · intro i h1 h2
    have hi : i < l.length := by simpa using h1
    simp [List.getD_eq_getElem?_getD, List.getElem?_eq_getElem, hi]

theorem pads_eq (k0 : List Byte) (hk : k0.length = 64) :
    pads k0 = (k0.map (fun b => b ^^^ 0x36), k0.map (fun b => b ^^^ 0x5c)) := by
  unfold pads
  refine (foldl_pair (fun a i => a.set i (toByte ((k0.getD i 0).val ^^^ 0x36)))
    (fun a i => a.set i (toByte ((k0.getD i 0).val ^^^ 0x5c))) (List.range 64)
    (List.replicate 64 (0 : Byte)) (List.replicate 64 (0 : Byte))).trans ?_
  rw [foldl_set_range _ _ _ (by simp), foldl_set_range _ _ _ (by simp), List.drop_replicate]
  simp only [Nat.sub_self, List.replicate_zero, List.append_nil]
  rw [map_range_getD k0 64 hk (fun b => toByte (b.val ^^^ 0x36)),
    map_range_getD k0 64 hk (fun b => toByte (b.val ^^^ 0x5c))]
  rfl

theorem memcpy_zero_replicate (src : List Byte) (m n : Nat) (hn : src.length = n) :
    memcpy (List.replicate m 0) 0 src n = src ++ List.replicate (m - n) 0 := by
  simp only [memcpy, List.take_zero, List.nil_append, Nat.zero_add, List.drop_replicate]
  rw [List.take_of_length_le (by omega)]

theorem memcpy_tail (A src : List Byte) (off n : Nat) (hA : A.length = off)
    (hn : src.length = n) :
    memcpy (A ++ List.replicate n 0) off src n = A ++ src := by
  subst hA hn
  simp [memcpy]

theorem sha256_internal_zero (data : List Byte) :
    sha256_internal data (List.replicate 32 0) = sha256_digest data := rfl

theorem keyBlock_eq (key : List Byte) :
    (if key.length > 64 then memcpy (List.replicate 64 0) 0 (sha256_digest key) 32
      else memcpy (List.replicate 64 0) 0 key key.length) = keyBlock key := by
  unfold keyBlock
  by_cases h : key.length > 64
  · rw [if_pos h, if_neg (by omega)]
    exact memcpy_zero_replicate _ 64 32 (sha256_digest_length key)
  · rw [if_neg h, if_pos (by omega)]
    rw [memcpy_zero_replicate _ 64 _ rfl]

theorem keyBlock_length (key : List Byte) : (keyBlock key).length = 64 := by
  unfold keyBlock
  split
  · simp; omega
  · simp [sha256_digest_length]

theorem hmac_sha256_eq (key msg out32 : List Byte) (hout : 32 ≤ out32.length) :
    hmac_sha256 key msg out32 = hmac_spec key msg ++ out32.drop 32 := by
  unfold hmac_sha256 hmac_spec
  simp only [sha256_internal_zero]
  rw [keyBlock_eq, pads_eq _ (keyBlock_length key)]
  simp only []
  have hi : (if msg.length ≠ 0 then
        memcpy (memcpy (List.replicate (64 + msg.length) 0) 0
          ((keyBlock key).map (fun b => b ^^^ 0x36)) 64) 64 msg msg.length
      else memcpy (List.replicate (64 + msg.length) 0) 0
          ((keyBlock key).map (fun b => b ^^^ 0x36)) 64)
      = (keyBlock key).map (fun b => b ^^^ 0x36) ++ msg := by
    rw [memcpy_zero_replicate _ _ 64 (by simp [keyBlock_length]), Nat.add_sub_cancel_left]
    split
    · exact memcpy_tail _ _ _ _ (by simp [keyBlock_length]) rfl
    · have : msg = [] := List.length_eq_zero.mp (by omega)
      subst this
      simp
  rw [hi]
  have ho : memcpy (memcpy (List.replicate (64 + 32) 0) 0
        ((keyBlock key).map (fun b => b ^^^ 0x5c)) 64) 64
        (sha256_digest ((keyBlock key).map (fun b => b ^^^ 0x36) ++ msg)) 32
      = (keyBlock key).map (fun b => b ^^^ 0x5c)
        ++ sha256_digest ((keyBlock key).map (fun b => b ^^^ 0x36) ++ msg) := by
    rw [memcpy_zero_replicate _ _ 64 (by simp [keyBlock_length]), Nat.add_sub_cancel_left]
    exact memcpy_tail _ _ _ _ (by simp [keyBlock_length]) (sha256_digest_length _)
  rw [ho, sha256_internal_frame _ _ hout]

/-- C2: for every key and message and every output buffer of at least 32 bytes,
`hmac_sha256` leaves `sha256(opad ‖ sha256(ipad ‖ msg))` in the first 32 bytes of the
buffer, where the key block is the key followed by zeros when `len(key) ≤ 64` (so a
64-byte key is used unhashed) and `sha256(key)` followed by 32 zeros otherwise, and `ipad`,
`opad` are the key block xor `0x36`, `0x5c` byte by byte. -/
theorem C2_hmac_sha256_structure (key msg out32 : List Byte) (hout : 32 ≤ out32.length) :
    hmac_sha256 key msg out32
        = sha256_digest ((keyBlock key).map (fun b => b ^^^ 0x5c)
            ++ sha256_digest ((keyBlock key).map (fun b => b ^^^ 0x36) ++ msg))
          ++ out32.drop 32
      ∧ (keyBlock key).length = 64
      ∧ (key.length ≤ 64 → keyBlock key = key ++ List.replicate (64 - key.length) 0)
      ∧ (key.length = 64 → keyBlock key = key)
      ∧ (key.length > 64 → keyBlock key = sha256_digest key ++ List.replicate 32 0) := by
  refine ⟨hmac_sha256_eq key msg out32 hout, keyBlock_length key, ?_, ?_, ?_⟩
  · intro h; simp [keyBlock, h]
  · intro h; simp [keyBlock, h]
  · intro h; rw [keyBlock, if_neg (by omega)]

theorem C2_hmac_sha256_structure_witness :
    32 ≤ (List.replicate 32 (0 : Byte)).length
      ∧ (hmac_sha256 [] [] (List.replicate 32 0)
        = sha256_digest ((keyBlock []).map (fun b => b ^^^ 0x5c)
            ++ sha256_digest ((keyBlock []).map (fun b => b ^^^ 0x36) ++ []))
          ++ (List.replicate 32 (0 : Byte)).drop 32
      ∧ (keyBlock []).length = 64
      ∧ (([] : List Byte).length ≤ 64
          → keyBlock [] = [] ++ List.replicate (64 - ([] : List Byte).length) 0)
      ∧ (([] : List Byte).length = 64 → keyBlock [] = [])
      ∧ (([] : List Byte).length > 64
          → keyBlock [] = sha256_digest [] ++ List.replicate 32 0)) :=
  ⟨by decide, C2_hmac_sha256_structure [] [] (List.replicate 32 0) (by decide)⟩

theorem hmac_spec_length (key msg : List Byte) : (hmac_spec key msg).length = 32 :=
  sha256_digest_length _

theorem hmac_sha256_zero (key msg : List Byte) :
    hmac_sha256 key msg (List.replicate 32 0) = hmac_spec key msg := by
  rw [hmac_sha256_eq _ _ _ (by simp)]
  simp

/-- C4: RFC 4231 test case 1: with the key of 20 bytes `0x0b` and the message "Hi There",
`hmac_sha256` writes `b0344c61...2e32cff7` into the first 32 bytes of every output buffer
of at least 32 bytes. -/
theorem C4_hmac_sha256_rfc4231_case1 (out32 : List Byte) (hout : 32 ≤ out32.length) :
    hmac_sha256 (List.replicate 20 0x0b) [0x48, 0x69, 0x20, 0x54, 0x68, 0x65, 0x72, 0x65] out32
      = [0xb0,0x34,0x4c,0x61,0xd8,0xdb,0x38,0x53,0x5c,0xa8,0xaf,0xce,0xaf,0x0b,0xf1,0x2b,
         0x88,0x1d,0xc2,0x00,0xc9,0x83,0x3d,0xa7,0x26,0xe9,0x37,0x6c,0x2e,0x32,0xcf,0xf7]
        ++ out32.drop 32 := by
  rw [hmac_sha256_eq _ _ _ hout]
  refine congrArg (· ++ out32.drop 32) ?_
  decide!

theorem C4_hmac_sha256_rfc4231_case1_witness :
    32 ≤ (List.replicate 32 (0 : Byte)).length
      ∧ hmac_sha256 (List.replicate 20 0x0b) [0x48, 0x69, 0x20, 0x54, 0x68, 0x65, 0x72, 0x65]
          (List.replicate 32 0)
        = [0xb0,0x34,0x4c,0x61,0xd8,0xdb,0x38,0x53,0x5c,0xa8,0xaf,0xce,0xaf,0x0b,0xf1,0x2b,
           0x88,0x1d,0xc2,0x00,0xc9,0x83,0x3d,0xa7,0x26,0xe9,0x37,0x6c,0x2e,0x32,0xcf,0xf7]
          ++ (List.replicate 32 (0 : Byte)).drop 32 :=
  ⟨by decide, C4_hmac_sha256_rfc4231_case1 (List.replicate 32 0) (by decide)⟩

/-! ### The truncated authenticators -/

theorem computeHMACTrunc_ok (self : MicroSecurity_Obj) (seed outBuf : List Byte) (n : Nat)
    (hkey : self.m_key ≠ []) (h1 : 1 ≤ n) (h32 : n ≤ 32) :
    self.computeHMACTrunc (some seed) (some outBuf) n
      = { ret := true, out := some ((hmac_spec self.m_key seed).take n ++ outBuf.drop n),
          key := self.m_key } := by
  unfold MicroSecurity_Obj.computeHMACTrunc
  simp only []
  rw [if_neg (by omega), if_neg (by simpa using hkey), hmac_sha256_zero]
  simp [memcpy]

theorem computeHMACTrunc_ret (self : MicroSecurity_Obj) (seed out : Option (List Byte))
    (n : Nat) :
    (self.computeHMACTrunc seed out n).ret = false
      ↔ (seed = none ∨ out = none ∨ n = 0 ∨ n > 32 ∨ self.m_key = []) := by
  unfold MicroSecurity_Obj.computeHMACTrunc
  cases seed <;> cases out <;> simp only []
  · simp
  · simp
  · simp
  · split
    · simp_all; tauto
    · split
      · simp_all
      · simp_all

/-- C5: with a non-empty stored key, a non-null seed of any length, a non-null output
buffer and `1 ≤ outTrunc ≤ 32`, `computeHMACTrunc` returns true and the first `outTrunc`
bytes of the output buffer are the first `outTrunc` bytes that `hmac_sha256(storedKey, seed)`
writes (into any buffer `mac` of at least 32 bytes); for the key `12 34 .. 77 88`, the
seed `AA BB CC` and `outTrunc = 16` these are `6e f8 cd 70 .. 7d 55 b7`, the first 16 bytes
of the RFC 2104 HMAC over FIPS 180-4 SHA-256 of that key and seed. -/
theorem C5_computeHMACTrunc_success (self : MicroSecurity_Obj) (seed outBuf mac : List Byte)
    (outTrunc : Nat) (hkey : self.m_key ≠ []) (h1 : 1 ≤ outTrunc) (h32 : outTrunc ≤ 32)
    (hmac : 32 ≤ mac.length) :
    (self.computeHMACTrunc (some seed) (some outBuf) outTrunc).ret = true
      ∧ (self.computeHMACTrunc (some seed) (some outBuf) outTrunc).out.map (List.take outTrunc)
          = some ((hmac_sha256 self.m_key seed mac).take outTrunc)
      ∧ ((MicroSecurity_Obj.new (some [0x12, 0x34, 0x56, 0x78, 0x9A, 0xBC, 0xDE, 0xF0,
            0x11, 0x22, 0x33, 0x44, 0x55, 0x66, 0x77, 0x88])).computeHMACTrunc
            (some [0xAA, 0xBB, 0xCC]) (some outBuf) 16).out.map (List.take 16)
          = some [0x6e, 0xf8, 0xcd, 0x70, 0xfb, 0xf8, 0x82, 0x6b,
                  0xf2, 0x99, 0x8c, 0x3c, 0xad, 0x7d, 0x55, 0xb7]
      ∧ (RFC2104.HMAC [0x12, 0x34, 0x56, 0x78, 0x9A, 0xBC, 0xDE, 0xF0,
            0x11, 0x22, 0x33, 0x44, 0x55, 0x66, 0x77, 0x88] [0xAA, 0xBB, 0xCC]).map (List.take 16)
          = some [0x6e, 0xf8, 0xcd, 0x70, 0xfb, 0xf8, 0x82, 0x6b,
                  0xf2, 0x99, 0x8c, 0x3c, 0xad, 0x7d, 0x55, 0xb7] := by
  refine ⟨?_, ?_, ?_, ?_⟩
  · rw [computeHMACTrunc_ok self seed outBuf outTrunc hkey h1 h32]
  · rw [computeHMACTrunc_ok self seed outBuf outTrunc hkey h1 h32, hmac_sha256_eq _ _ _ hmac]
    have hl := hmac_spec_length self.m_key seed
    simp only [Option.map_some']
    rw [List.take_append_of_le_length (by rw [List.length_take]; omega),
      List.take_append_of_le_length (by omega), List.take_take, Nat.min_self]
  · rw [computeHMACTrunc_ok (MicroSecurity_Obj.new (some [0x12, 0x34, 0x56, 0x78, 0x9A, 0xBC,
      0xDE, 0xF0, 0x11, 0x22, 0x33, 0x44, 0x55, 0x66, 0x77, 0x88])) [0xAA, 0xBB, 0xCC] outBuf 16
      (by simp [MicroSecurity_Obj.new]) (by decide) (by decide)]
    simp only [Option.map_some']
    rw [List.take_append_of_le_length (by rw [List.length_take, hmac_spec_length]; decide),
      List.take_take, Nat.min_self]
    refine congrArg some ?_
    decide!
  · decide!

theorem C5_computeHMACTrunc_success_witness :
    (MicroSecurity_Obj.mk [0x11, 0x22, 0x33, 0x44]).m_key ≠ [] ∧ 1 ≤ 16 ∧ 16 ≤ 32
      ∧ 32 ≤ (List.replicate 32 (0 : Byte)).length
      ∧ ((MicroSecurity_Obj.mk [0x11, 0x22, 0x33, 0x44]).computeHMACTrunc
          (some [0xAA, 0xBB, 0xCC]) (some (List.replicate 16 0)) 16).ret = true
      ∧ ((MicroSecurity_Obj.mk [0x11, 0x22, 0x33, 0x44]).computeHMACTrunc
          (some [0xAA, 0xBB, 0xCC]) (some (List.replicate 16 0)) 16).out.map (List.take 16)
          = some ((hmac_sha256 (MicroSecurity_Obj.mk [0x11, 0x22, 0x33, 0x44]).m_key
              [0xAA, 0xBB, 0xCC] (List.replicate 32 0)).take 16)
      ∧ ((MicroSecurity_Obj.new (some [0x12, 0x34, 0x56, 0x78, 0x9A, 0xBC, 0xDE, 0xF0,
            0x11, 0x22, 0x33, 0x44, 0x55, 0x66, 0x77, 0x88])).computeHMACTrunc
            (some [0xAA, 0xBB, 0xCC]) (some (List.replicate 16 0)) 16).out.map (List.take 16)
          = some [0x6e, 0xf8, 0xcd, 0x70, 0xfb, 0xf8, 0x82, 0x6b,
                  0xf2, 0x99, 0x8c, 0x3c, 0xad, 0x7d, 0x55, 0xb7]
      ∧ (RFC2104.HMAC [0x12, 0x34, 0x56, 0x78, 0x9A, 0xBC, 0xDE, 0xF0,
            0x11, 0x22, 0x33, 0x44, 0x55, 0x66, 0x77, 0x88] [0xAA, 0xBB, 0xCC]).map (List.take 16)
          = some [0x6e, 0xf8, 0xcd, 0x70, 0xfb, 0xf8, 0x82, 0x6b,
                  0xf2, 0x99, 0x8c, 0x3c, 0xad, 0x7d, 0x55, 0xb7] :=
  ⟨by decide, by decide, by decide, by decide,
    C5_computeHMACTrunc_success (MicroSecurity_Obj.mk [0x11, 0x22, 0x33, 0x44])
      [0xAA, 0xBB, 0xCC] (List.replicate 16 0) (List.replicate 32 0) 16
      (by decide) (by decide) (by decide) (by decide)⟩

/-- C6: `computeHMACTrunc` returns false if and only if the seed pointer is null, the
output pointer is null, `outTrunc` is 0, `outTrunc` is greater than 32, or the stored key
is empty; so `outTrunc = 0` and `outTrunc = 33` fail (no clamping) and an empty stored key
fails for every seed and `outTrunc`. -/
theorem C6_computeHMACTrunc_false_iff (self : MicroSecurity_Obj)
    (seed out : Option (List Byte)) (outTrunc : Nat) :
    ((self.computeHMACTrunc seed out outTrunc).ret = false
        ↔ (seed = none ∨ out = none ∨ outTrunc = 0 ∨ outTrunc > 32 ∨ self.m_key = []))
      ∧ (self.computeHMACTrunc seed out 0).ret = false
      ∧ (self.computeHMACTrunc seed out 33).ret = false
      ∧ ((MicroSecurity_Obj.mk []).computeHMACTrunc seed out outTrunc).ret = false := by
  refine ⟨computeHMACTrunc_ret self seed out outTrunc, ?_, ?_, ?_⟩
  · rw [computeHMACTrunc_ret]; simp
  · rw [computeHMACTrunc_ret]; simp
  · rw [computeHMACTrunc_ret]; simp

theorem concatHashTrunc_eq (self : MicroSecurity_Obj) (seed outBuf : List Byte) (n : Nat)
    (secret : List Byte) :
    concatHashTrunc self seed outBuf n secret
      = { ret := true, out := some ((sha256_digest (seed ++ secret)).take n ++ outBuf.drop n),
          key := self.m_key } := by
  unfold concatHashTrunc
  simp only [sha256_internal_zero]
  rw [memcpy_zero_replicate _ _ _ rfl, Nat.add_sub_cancel_left, memcpy_tail _ _ _ _ rfl rfl]
  simp [memcpy]

theorem computeSHA256ConcatTrunc_ret (self : MicroSecurity_Obj)
    (seed out : Option (List Byte)) (n : Nat) (extra : Option (List Byte)) :
    (self.computeSHA256ConcatTrunc seed out n extra).ret = false
      ↔ (seed = none ∨ out = none ∨ n = 0 ∨ n > 32
          ∨ ((extra = none ∨ extra = some []) ∧ self.m_key = [])) := by
  unfold MicroSecurity_Obj.computeSHA256ConcatTrunc
  cases seed <;> cases out <;> simp only []
  · simp
  · simp
  · simp
  · split
    · simp_all; tauto
    · split
      · rename_i h
        rw [concatHashTrunc_eq]
        cases extra <;> simp_all
      · split
        · rename_i h
          rw [concatHashTrunc_eq]
          simp_all
        · rename_i h1 h2 h3
          cases extra <;> simp_all

theorem computeSHA256ConcatTrunc_extra (self : MicroSecurity_Obj) (seed outBuf : List Byte)
    (n : Nat) (s : List Byte) (h1 : 1 ≤ n) (h32 : n ≤ 32) (hs : s ≠ []) :
    self.computeSHA256ConcatTrunc (some seed) (some outBuf) n (some s)
      = { ret := true, out := some ((sha256_digest (seed ++ s)).take n ++ outBuf.drop n),
          key := self.m_key } := by
  unfold MicroSecurity_Obj.computeSHA256ConcatTrunc
  simp only []
  rw [if_neg (by omega), if_pos (by simpa using hs), concatHashTrunc_eq]
  rfl

theorem computeSHA256ConcatTrunc_stored (self : MicroSecurity_Obj) (seed outBuf : List Byte)
    (n : Nat) (extra : Option (List Byte)) (h1 : 1 ≤ n) (h32 : n ≤ 32)
    (he : extra = none ∨ extra = some []) (hk : self.m_key ≠ []) :
    self.computeSHA256ConcatTrunc (some seed) (some outBuf) n extra
      = { ret := true,
          out := some ((sha256_digest (seed ++ self.m_key)).take n ++ outBuf.drop n),
          key := self.m_key } := by
  unfold MicroSecurity_Obj.computeSHA256ConcatTrunc
  simp only []
  rw [if_neg (by omega), if_neg (by rcases he with h | h <;> simp [h]),
    if_pos (by simpa using hk), concatHashTrunc_eq]

theorem take_take_append (d rest : List Byte) (n : Nat) (hn : n ≤ d.length) :
    (d.take n ++ rest).take n = d.take n := by
  rw [List.take_append_of_le_length (by rw [List.length_take]; omega), List.take_take,
    Nat.min_self]

/-- C7: in a valid call of `computeSHA256ConcatTrunc` (non-null seed and output,
`1 ≤ outTrunc ≤ 32`): a supplied non-empty explicit secret is the secret, whatever the
stored key is; otherwise a non-empty stored key is the secret; a supplied but empty
explicit secret behaves exactly like no explicit secret; and on success the first
`outTrunc` bytes of the output are the first `outTrunc` bytes of `sha256(seed ‖ secret)`. -/
theorem C7_computeSHA256ConcatTrunc_secret (self other : MicroSecurity_Obj)
    (seed outBuf : List Byte) (outTrunc : Nat) (h1 : 1 ≤ outTrunc) (h32 : outTrunc ≤ 32) :
    (∀ s : List Byte, s ≠ [] →
        (self.computeSHA256ConcatTrunc (some seed) (some outBuf) outTrunc (some s)).ret = true
        ∧ (self.computeSHA256ConcatTrunc (some seed) (some outBuf) outTrunc (some s)).out.map
            (List.take outTrunc) = some ((sha256_digest (seed ++ s)).take outTrunc)
        ∧ (other.computeSHA256ConcatTrunc (some seed) (some outBuf) outTrunc (some s)).out
            = (self.computeSHA256ConcatTrunc (some seed) (some outBuf) outTrunc (some s)).out)
      ∧ (∀ extra : Option (List Byte), (extra = none ∨ extra = some []) → self.m_key ≠ [] →
        (self.computeSHA256ConcatTrunc (some seed) (some outBuf) outTrunc extra).ret = true
        ∧ (self.computeSHA256ConcatTrunc (some seed) (some outBuf) outTrunc extra).out.map
            (List.take outTrunc) = some ((sha256_digest (seed ++ self.m_key)).take outTrunc))
      ∧ self.computeSHA256ConcatTrunc (some seed) (some outBuf) outTrunc (some [])
          = self.computeSHA256ConcatTrunc (some seed) (some outBuf) outTrunc none := by
  refine ⟨?_, ?_, ?_⟩
  · intro s hs
    rw [computeSHA256ConcatTrunc_extra self seed outBuf outTrunc s h1 h32 hs,
      computeSHA256ConcatTrunc_extra other seed outBuf outTrunc s h1 h32 hs]
    refine ⟨rfl, ?_, rfl⟩
    simp only [Option.map_some']
    rw [take_take_append _ _ _ (by rw [sha256_digest_length]; exact h32)]
  · intro extra he hk
    rw [computeSHA256ConcatTrunc_stored self seed outBuf outTrunc extra h1 h32 he hk]
    refine ⟨rfl, ?_⟩
    simp only [Option.map_some']
    rw [take_take_append _ _ _ (by rw [sha256_digest_length]; exact h32)]
  · unfold MicroSecurity_Obj.computeSHA256ConcatTrunc
    simp

theorem C7_computeSHA256ConcatTrunc_secret_witness :
    1 ≤ 32 ∧ 32 ≤ 32
      ∧ (MicroSecurity_Obj.mk []).computeSHA256ConcatTrunc (some [0xAA]) (some []) 32 (some [])
          = (MicroSecurity_Obj.mk []).computeSHA256ConcatTrunc (some [0xAA]) (some []) 32 none :=
  ⟨by decide, by decide,
    (C7_computeSHA256ConcatTrunc_secret (MicroSecurity_Obj.mk []) (MicroSecurity_Obj.mk [1])
      [0xAA] [] 32 (by decide) (by decide)).2.2⟩

/-- C8: `computeSHA256ConcatTrunc` returns false if and only if the seed pointer is null,
the output pointer is null, `outTrunc` is 0 or greater than 32, or the explicit secret is
absent or empty and the stored key is empty; so it succeeds with an empty stored key
whenever a non-empty explicit secret is given and the other arguments are valid. -/
theorem C8_computeSHA256ConcatTrunc_false_iff (self : MicroSecurity_Obj)
    (seed out : Option (List Byte)) (outTrunc : Nat) (extra : Option (List Byte)) :
    ((self.computeSHA256ConcatTrunc seed out outTrunc extra).ret = false
        ↔ (seed = none ∨ out = none ∨ outTrunc = 0 ∨ outTrunc > 32
            ∨ ((extra = none ∨ extra = some []) ∧ self.m_key = [])))
      ∧ (∀ seedBytes outBuf s : List Byte, s ≠ [] → 1 ≤ outTrunc → outTrunc ≤ 32 →
          ((MicroSecurity_Obj.mk []).computeSHA256ConcatTrunc (some seedBytes) (some outBuf)
            outTrunc (some s)).ret = true) := by
  refine ⟨computeSHA256ConcatTrunc_ret self seed out outTrunc extra, ?_⟩
  intro seedBytes outBuf s hs h1 h32
  rw [computeSHA256ConcatTrunc_extra _ seedBytes outBuf outTrunc s h1 h32 hs]

theorem C8_computeSHA256ConcatTrunc_false_iff_witness :
    ([0x01] : List Byte) ≠ [] ∧ 1 ≤ 32 ∧ 32 ≤ 32
      ∧ ((MicroSecurity_Obj.mk []).computeSHA256ConcatTrunc (some [0xAA, 0xBB])
          (some (List.replicate 32 0)) 32 (some [0x01])).ret = true :=
  ⟨by decide, by decide, by decide,
    (C8_computeSHA256ConcatTrunc_false_iff (MicroSecurity_Obj.mk []) none none 32 none).2
      [0xAA, 0xBB] (List.replicate 32 0) [0x01] (by decide) (by decide) (by decide)⟩

theorem computeHMACTrunc_key (self : MicroSecurity_Obj) (seed out : Option (List Byte))
    (n : Nat) : (self.computeHMACTrunc seed out n).key = self.m_key := by
  unfold MicroSecurity_Obj.computeHMACTrunc
  cases seed <;> cases out <;> simp only []
  split
  · rfl
  · split <;> rfl

theorem computeHMACTrunc_fail_out (self : MicroSecurity_Obj) (seed out : Option (List Byte))
    (n : Nat) (h : (self.computeHMACTrunc seed out n).ret = false) :
    (self.computeHMACTrunc seed out n).out = out := by
  unfold MicroSecurity_Obj.computeHMACTrunc at h ⊢
  cases seed <;> cases out <;> simp only [] at h ⊢
  split
  · rfl
  · split
    · rfl
    · rename_i h1 h2
      rw [if_neg h1, if_neg h2] at h
      exact absurd h (by simp)

theorem computeSHA256ConcatTrunc_key (self : MicroSecurity_Obj)
    (seed out : Option (List Byte)) (n : Nat) (extra : Option (List Byte)) :
    (self.computeSHA256ConcatTrunc seed out n extra).key = self.m_key := by
  unfold MicroSecurity_Obj.computeSHA256ConcatTrunc
  cases seed <;> cases out <;> simp only []
  split
  · rfl
  · split
    · rfl
    · split <;> rfl

theorem computeSHA256ConcatTrunc_fail_out (self : MicroSecurity_Obj)
    (seed out : Option (List Byte)) (n : Nat) (extra : Option (List Byte))
    (h : (self.computeSHA256ConcatTrunc seed out n extra).ret = false) :
    (self.computeSHA256ConcatTrunc seed out n extra).out = out := by
  unfold MicroSecurity_Obj.computeSHA256ConcatTrunc at h ⊢
  cases seed <;> cases out <;> simp only [] at h ⊢
  split
  · rfl
  · rename_i h1
    rw [if_neg h1] at h
    split
    · rename_i h2
      rw [if_pos h2] at h
      exact absurd h (by simp [concatHashTrunc])
    · rename_i h2
      rw [if_neg h2] at h
      split
      · rename_i h3
        rw [if_pos h3] at h
        exact absurd h (by simp [concatHashTrunc])
      · rfl

/-- C9: whenever `computeHMACTrunc` or `computeSHA256ConcatTrunc` returns false, the
caller's output buffer is exactly as it was before the call and the stored key is
unchanged. -/
theorem C9_failure_writes_nothing (self : MicroSecurity_Obj) (seed out : Option (List Byte))
    (outTrunc : Nat) (extra : Option (List Byte)) :
    ((self.computeHMACTrunc seed out outTrunc).ret = false →
        (self.computeHMACTrunc seed out outTrunc).out = out
        ∧ (self.computeHMACTrunc seed out outTrunc).key = self.m_key)
      ∧ ((self.computeSHA256ConcatTrunc seed out outTrunc extra).ret = false →
        (self.computeSHA256ConcatTrunc seed out outTrunc extra).out = out
        ∧ (self.computeSHA256ConcatTrunc seed out outTrunc extra).key = self.m_key) :=
  ⟨fun h => ⟨computeHMACTrunc_fail_out self seed out outTrunc h,
      computeHMACTrunc_key self seed out outTrunc⟩,
    fun h => ⟨computeSHA256ConcatTrunc_fail_out self seed out outTrunc extra h,
      computeSHA256ConcatTrunc_key self seed out outTrunc extra⟩⟩

theorem C9_failure_writes_nothing_witness :
    (((MicroSecurity_Obj.mk [1, 2]).computeHMACTrunc (some [0xAA]) (some [5, 6, 7]) 33).ret
        = false
      ∧ ((MicroSecurity_Obj.mk [1, 2]).computeHMACTrunc (some [0xAA]) (some [5, 6, 7]) 33).out
          = some [5, 6, 7]
      ∧ ((MicroSecurity_Obj.mk [1, 2]).computeHMACTrunc (some [0xAA]) (some [5, 6, 7]) 33).key
          = [1, 2])
    ∧ (((MicroSecurity_Obj.mk [1, 2]).computeSHA256ConcatTrunc (some [0xAA]) (some [5, 6, 7]) 33
          (some [9])).ret = false
      ∧ ((MicroSecurity_Obj.mk [1, 2]).computeSHA256ConcatTrunc (some [0xAA]) (some [5, 6, 7]) 33
          (some [9])).out = some [5, 6, 7]
      ∧ ((MicroSecurity_Obj.mk [1, 2]).computeSHA256ConcatTrunc (some [0xAA]) (some [5, 6, 7]) 33
          (some [9])).key = [1, 2]) :=
  ⟨⟨by decide, (C9_failure_writes_nothing (MicroSecurity_Obj.mk [1, 2]) (some [0xAA])
      (some [5, 6, 7]) 33 (some [9])).1 (by decide)⟩,
    ⟨by decide, (C9_failure_writes_nothing (MicroSecurity_Obj.mk [1, 2]) (some [0xAA])
      (some [5, 6, 7]) 33 (some [9])).2 (by decide)⟩⟩

/-- C10: truncation monotonicity: with a non-empty stored key, for `1 ≤ n ≤ 32` the `n`
bytes `computeHMACTrunc(seed, n)` produces are the first `n` of the 32 bytes
`computeHMACTrunc(seed, 32)` produces, and for `1 ≤ m ≤ n` the output for `m` is a prefix of
the output for `n` (whatever the output buffers held before). -/
theorem C10_truncation_monotone (self : MicroSecurity_Obj) (seed out1 out2 : List Byte)
    (m n : Nat) (hkey : self.m_key ≠ []) (hm : 1 ≤ m) (hmn : m ≤ n) (hn : n ≤ 32) :
    (∃ full : List Byte, full.length = 32
        ∧ (self.computeHMACTrunc (some seed) (some out2) 32).out.map (List.take 32) = some full
        ∧ (self.computeHMACTrunc (some seed) (some out1) n).out.map (List.take n)
            = some (full.take n)
        ∧ (full.take n).length = n)
      ∧ (∃ outn : List Byte, outn.length = n
        ∧ (self.computeHMACTrunc (some seed) (some out2) n).out.map (List.take n) = some outn
        ∧ (self.computeHMACTrunc (some seed) (some out1) m).out.map (List.take m)
            = some (outn.take m)) := by
  have hl := hmac_spec_length self.m_key seed
  refine ⟨⟨hmac_spec self.m_key seed, hl, ?_, ?_, ?_⟩,
    ⟨(hmac_spec self.m_key seed).take n, ?_, ?_, ?_⟩⟩
  · rw [computeHMACTrunc_ok self seed out2 32 hkey (by decide) (by decide)]
    simp only [Option.map_some']
    rw [take_take_append _ _ _ (by omega), List.take_of_length_le (by omega)]
  · rw [computeHMACTrunc_ok self seed out1 n hkey (by omega) hn]
    simp only [Option.map_some']
    rw [take_take_append _ _ _ (by omega)]
  · rw [List.length_take]; omega
  · rw [List.length_take]; omega
  · rw [computeHMACTrunc_ok self seed out2 n hkey (by omega) hn]
    simp only [Option.map_some']
    rw [take_take_append _ _ _ (by omega)]
  · rw [computeHMACTrunc_ok self seed out1 m hkey hm (by omega)]
    simp only [Option.map_some']
    rw [take_take_append _ _ _ (by omega), List.take_take, Nat.min_eq_left hmn]

theorem C10_truncation_monotone_witness :
    (MicroSecurity_Obj.mk [0x11, 0x22]).m_key ≠ [] ∧ 1 ≤ 8 ∧ 8 ≤ 16 ∧ 16 ≤ 32
      ∧ (∃ full : List Byte, full.length = 32
        ∧ ((MicroSecurity_Obj.mk [0x11, 0x22]).computeHMACTrunc (some [0xAA])
            (some (List.replicate 32 1)) 32).out.map (List.take 32) = some full
        ∧ ((MicroSecurity_Obj.mk [0x11, 0x22]).computeHMACTrunc (some [0xAA])
            (some (List.replicate 32 0)) 16).out.map (List.take 16) = some (full.take 16)
        ∧ (full.take 16).length = 16)
      ∧ (∃ outn : List Byte, outn.length = 16
        ∧ ((MicroSecurity_Obj.mk [0x11, 0x22]).computeHMACTrunc (some [0xAA])
            (some (List.replicate 32 1)) 16).out.map (List.take 16) = some outn
        ∧ ((MicroSecurity_Obj.mk [0x11, 0x22]).computeHMACTrunc (some [0xAA])
            (some (List.replicate 32 0)) 8).out.map (List.take 8) = some (outn.take 8)) :=
  ⟨by decide, by decide, by decide, by decide,
    C10_truncation_monotone (MicroSecurity_Obj.mk [0x11, 0x22]) [0xAA] (List.replicate 32 0)
      (List.replicate 32 1) 8 16 (by decide) (by decide) (by decide) (by decide)⟩

/-! ### The blocks fed to the compression function -/

theorem loadWord_take (blk : List Byte) (i : Nat) (hi : i < 16) :
    loadWord (blk.take 64) i = loadWord blk i := by
  have e : ∀ j, j < 64 → (List.take 64 blk).getD j 0 = blk.getD j 0 := by
    intro j hj
    simp [List.getD_eq_getElem?_getD, List.getElem?_take, hj]
  simp only [loadWord, byteAt]
  rw [e _ (by omega), e _ (by omega), e _ (by omega), e _ (by omega)]

theorem process_block_take (h : List Nat) (blk : List Byte) :
    process_block h (blk.take 64) = process_block h blk := by
  unfold process_block
  rw [foldl_set_range _ _ _ (by simp), foldl_set_range _ _ _ (by simp)]
  rw [List.map_congr_left (fun i hi => loadWord_take blk i (List.mem_range.mp hi))]

theorem foldl_map_take (data : List Byte) (h0 : List Nat) (n : Nat) :
    ((List.range n).map (fun i => (data.drop (i*64)).take 64)).foldl process_block h0
      = (List.range n).foldl (fun h i => process_block h (data.drop (i*64))) h0 := by
  rw [List.foldl_map]
  simp only [process_block_take]

/-- The state `sha256_internal` ends with is the fold of `process_block` over
`sha256_blocks`: these are the blocks the code compresses, in order. -/
theorem sha256_state_blocks (data : List Byte) :
    sha256_state data
      = (sha256_blocks data).foldl process_block
          [0x6a09e667, 0xbb67ae85, 0x3c6ef372, 0xa54ff53a,
           0x510e527f, 0x9b05688c, 0x1f83d9ab, 0x5be0cd19] := by
  unfold sha256_state sha256_blocks
  simp only []
  split
  · rw [List.foldl_append, foldl_map_take]
    simp only [List.foldl_cons, List.foldl_nil, process_block_take]
  · rw [List.foldl_append, foldl_map_take]
    simp only [List.foldl_cons, List.foldl_nil, process_block_take]

theorem lastBuf_layout (data : List Byte) :
    lastBuf data = data.drop (data.length / 64 * 64) ++ [0x80]
      ++ List.replicate ((if data.length % 64 ≥ 56 then 119 else 55) - data.length % 64) 0
      ++ FIPS180.be64 (data.length * 8 % 2 ^ 64)
      ++ List.replicate (if data.length % 64 ≥ 56 then 0 else 64) 0 := by
  have htl : (data.drop (data.length / 64 * 64)).length = data.length % 64 := by
    rw [List.length_drop]; omega
  have hr : data.length % 64 < 64 := Nat.mod_lt _ (by decide)
  unfold lastBuf
  simp only []
  generalize data.drop (data.length / 64 * 64) = tl at htl ⊢
  generalize data.length % 64 = r at htl hr ⊢
  generalize data.length * 8 % 2 ^ 64 = L
  have h1 : (if r ≠ 0 then memcpy (List.replicate 128 0) 0 tl r else List.replicate 128 0)
      = tl ++ List.replicate (128 - r) 0 := by
    split
    · simp only [memcpy, List.take_zero, List.nil_append, Nat.zero_add, List.drop_replicate]
      rw [List.take_of_length_le (by omega)]
    · have : tl = [] := List.length_eq_zero.mp (by omega)
      subst this
      simp_all
  rw [h1]
  have h2 : (tl ++ List.replicate (128 - r) 0).set r 0x80
      = tl ++ 0x80 :: List.replicate (127 - r) 0 := by
    rw [show 128 - r = (127 - r) + 1 by omega, List.replicate_succ, set_append_cons _ _ htl]
  rw [h2]
  split
  · rename_i h56
    have h3 : tl ++ 0x80 :: List.replicate (127 - r) 0
        = (tl ++ [0x80] ++ List.replicate (119 - r) 0) ++ List.replicate (0 + 8) 0 := by
      rw [show 127 - r = (119 - r) + (0 + 8) by omega, List.replicate_add]
      simp
    rw [h3, storeLen_append _ _ (by simp; omega)]
  · rename_i h56
    have h3 : tl ++ 0x80 :: List.replicate (127 - r) 0
        = (tl ++ [0x80] ++ List.replicate (55 - r) 0) ++ List.replicate (64 + 8) 0 := by
      rw [show 127 - r = (55 - r) + (64 + 8) by omega, List.replicate_add]
      simp
    rw [h3, storeLen_append _ _ (by simp; omega)]

theorem be64_length (L : Nat) : (FIPS180.be64 L).length = 8 := by
  simp [FIPS180.be64]

theorem lastBuf_length (data : List Byte) : (lastBuf data).length = 128 := by
  have htl : (data.drop (data.length / 64 * 64)).length = data.length % 64 := by
    rw [List.length_drop]; omega
  have hr : data.length % 64 < 64 := Nat.mod_lt _ (by decide)
  rw [lastBuf_layout]
  simp only [List.length_append, List.length_replicate, List.length_singleton, be64_length, htl]
  split <;> omega

theorem layout_facts (A E R : List Byte) (m : Byte) (r z : Nat) (hA : A.length = r)
    (hE : E.length = 8) :
    (∀ i, i < r → (A ++ [m] ++ List.replicate z 0 ++ E ++ R).getD i 0 = A.getD i 0)
      ∧ (A ++ [m] ++ List.replicate z 0 ++ E ++ R).getD r 0 = m
      ∧ (∀ i, r < i → i < r + 1 + z → (A ++ [m] ++ List.replicate z 0 ++ E ++ R).getD i 0 = 0)
      ∧ ((A ++ [m] ++ List.replicate z 0 ++ E ++ R).drop (r + 1 + z)).take 8 = E
      ∧ (∀ i, r + 1 + z + 8 ≤ i → i < r + 1 + z + 8 + R.length →
          (A ++ [m] ++ List.replicate z 0 ++ E ++ R).getD i 0 = R.getD (i - (r + 1 + z + 8)) 0) := by
  subst hA
  refine ⟨?_, ?_, ?_, ?_, ?_⟩
  · intro i hi
    simp only [List.append_assoc]
    rw [List.getD_append _ _ _ _ hi]
  · simp only [List.append_assoc]
    rw [List.getD_append_right _ _ _ _ (Nat.le_refl _)]
    simp
  · intro i h1 h2
    simp only [List.append_assoc]
    rw [List.getD_append_right _ _ _ _ (by omega)]
    obtain ⟨k, hk⟩ : ∃ k, i - A.length = k + 1 := ⟨i - A.length - 1, by omega⟩
    rw [hk, List.getD_eq_getElem?_getD]
    simp only [List.singleton_append, List.getElem?_cons_succ]
    rw [List.getElem?_append_left (by simp; omega)]
    rw [List.getElem?_replicate]
    split <;> rfl
  · have hl : (A ++ [m] ++ List.replicate z 0).length = A.length + 1 + z := by simp; omega
    rw [List.append_assoc _ E R, ← hl, List.drop_left, List.take_append_of_le_length (by omega),
      List.take_of_length_le (by omega)]
  · intro i h1 h2
    have hl : (A ++ [m] ++ List.replicate z 0 ++ E).length = A.length + 1 + z + 8 := by
      simp [hE]; omega
    rw [List.getD_append_right _ _ _ _ (by omega), hl]

theorem full_blocks_flatten (data : List Byte) (n : Nat) (hn : n * 64 ≤ data.length) :
    ((List.range n).map (fun i => (data.drop (i*64)).take 64)).flatten = data.take (n * 64) := by
  induction n with
  | zero => simp
  | succ n ih =>
    rw [List.range_succ, List.map_append, List.flatten_append, ih (by omega)]
    simp only [List.map_cons, List.map_nil, List.flatten_cons, List.flatten_nil, List.append_nil]
    rw [Nat.succ_mul, List.take_add]

theorem sha256_blocks_flatten (data : List Byte) :
    (sha256_blocks data).flatten
      = data ++ [0x80] ++ List.replicate (FIPS180.padZeros data.length) 0
          ++ FIPS180.be64 (data.length * 8 % 2 ^ 64) := by
  have htl : (data.drop (data.length / 64 * 64)).length = data.length % 64 := by
    rw [List.length_drop]; omega
  have hL := lastBuf_layout data
  have h128 := lastBuf_length data
  have hr : data.length % 64 < 64 := Nat.mod_lt _ (by decide)
  unfold sha256_blocks
  simp only []
  by_cases h56 : data.length % 64 ≥ 56
  · have hz : FIPS180.padZeros data.length = 119 - data.length % 64 := by
      unfold FIPS180.padZeros; omega
    simp only [h56, if_true] at hL ⊢
    have key : (lastBuf data).take 64 ++ ((lastBuf data).drop 64).take 64
        = data.drop (data.length / 64 * 64) ++ [0x80]
          ++ List.replicate (119 - data.length % 64) 0
          ++ FIPS180.be64 (data.length * 8 % 2 ^ 64) := by
      rw [← List.take_add, List.take_of_length_le (by omega), hL]
      simp
    rw [List.flatten_append, full_blocks_flatten _ _ (by omega)]
    simp only [List.flatten_cons, List.flatten_nil, List.append_nil]
    rw [key, hz]
    simp only [← List.append_assoc, List.take_append_drop]
  · have hz : FIPS180.padZeros data.length = 55 - data.length % 64 := by
      unfold FIPS180.padZeros; omega
    simp only [h56, if_false] at hL ⊢
    have key : (lastBuf data).take 64
        = data.drop (data.length / 64 * 64) ++ [0x80]
          ++ List.replicate (55 - data.length % 64) 0
          ++ FIPS180.be64 (data.length * 8 % 2 ^ 64) := by
      have hl : (data.drop (data.length / 64 * 64) ++ [0x80]
          ++ List.replicate (55 - data.length % 64) 0
          ++ FIPS180.be64 (data.length * 8 % 2 ^ 64)).length = 64 := by
        simp only [List.length_append, List.length_replicate, List.length_singleton,
          be64_length, htl]
        omega
      rw [hL, List.take_left' hl]
    rw [List.flatten_append, full_blocks_flatten _ _ (by omega)]
    simp only [List.flatten_cons, List.flatten_nil, List.append_nil]
    rw [key, hz]
    simp only [← List.append_assoc, List.take_append_drop]

theorem sha256_blocks_length (data : List Byte) :
    (sha256_blocks data).length
      = data.length / 64 + (if data.length % 64 ≥ 56 then 2 else 1) := by
  unfold sha256_blocks
  simp only []
  split <;> simp

theorem sha256_blocks_take (data : List Byte) :
    (sha256_blocks data).take (data.length / 64)
      = (List.range (data.length / 64)).map (fun i => (data.drop (i*64)).take 64) := by
  unfold sha256_blocks
  simp only []
  split <;> rw [List.take_left' (by simp)]

theorem sha256_blocks_block_length (data : List Byte) (b : List Byte)
    (hb : b ∈ sha256_blocks data) : b.length = 64 := by
  have h128 := lastBuf_length data
  have hfull : ∀ b ∈ (List.range (data.length / 64)).map (fun i => (data.drop (i*64)).take 64),
      b.length = 64 := by
    intro b hb
    obtain ⟨i, hi, rfl⟩ := List.mem_map.mp hb
    have := List.mem_range.mp hi
    rw [List.length_take, List.length_drop]
    omega
  unfold sha256_blocks at hb
  simp only [] at hb
  split at hb
  · rcases List.mem_append.mp hb with h | h
    · exact hfull b h
    · simp only [List.mem_cons, List.mem_singleton, List.not_mem_nil, or_false] at h
      rcases h with rfl | rfl
      · rw [List.length_take]; omega
      · rw [List.length_take, List.length_drop]; omega
  · rcases List.mem_append.mp hb with h | h
    · exact hfull b h
    · simp only [List.mem_singleton] at h
      subst h
      rw [List.length_take]; omega

theorem be64_value (L : Nat) (hL : L < 2 ^ 64) :
    (FIPS180.be64 L).foldl (fun acc x => acc * 256 + x.val) 0 = L := by
  rw [be64_eq]
  simp only [List.foldl_cons, List.foldl_nil, toByte, Fin.ofNat, Nat.shiftRight_eq_div_pow]
  simp only [Nat.zero_mul, Nat.zero_add]
  omega

theorem hmac_sha256_congr (k1 k2 msg out32 : List Byte) (h : keyBlock k1 = keyBlock k2) :
    hmac_sha256 k1 msg out32 = hmac_sha256 k2 msg out32 := by
  unfold hmac_sha256
  simp only [sha256_internal_zero]
  rw [keyBlock_eq k1, keyBlock_eq k2, h]

/-! ### Key-length boundary, padding, key storage -/

/-- C11: for every key longer than 64 bytes and every message, `hmac_sha256(key, msg)`
equals `hmac_sha256(sha256(key), msg)`, where `sha256(key)` is the 32 bytes that `sha256`
writes into a 32-byte buffer `tk`. -/
theorem C11_hmac_long_key (key msg out32 tk : List Byte) (hk : key.length > 64)
    (htk : tk.length = 32) :
    hmac_sha256 key msg out32 = hmac_sha256 (sha256 key tk) msg out32
      ∧ (sha256 key tk).length = 32 := by
  have hd : sha256 key tk = sha256_digest key := by
    unfold sha256
    rw [sha256_internal_frame _ _ (by omega), List.drop_of_length_le (by omega),
      List.append_nil]
  rw [hd]
  refine ⟨hmac_sha256_congr _ _ _ _ ?_, sha256_digest_length key⟩
  have hl := sha256_digest_length key
  unfold keyBlock
  rw [if_neg (by omega), if_pos (by omega), hl]

theorem C11_hmac_long_key_witness :
    (List.replicate 65 (0x61 : Byte)).length > 64 ∧ (List.replicate 32 (0 : Byte)).length = 32
      ∧ hmac_sha256 (List.replicate 65 0x61) [0x01] (List.replicate 32 0)
        = hmac_sha256 (sha256 (List.replicate 65 0x61) (List.replicate 32 0)) [0x01]
            (List.replicate 32 0)
      ∧ (sha256 (List.replicate 65 0x61) (List.replicate 32 0)).length = 32 :=
  ⟨by decide, by decide,
    C11_hmac_long_key (List.replicate 65 0x61) [0x01] (List.replicate 32 0)
      (List.replicate 32 0) (by decide) (by decide)⟩

/-- C12: for every input shorter than `2^61` bytes: the state `sha256_internal` ends with is
the fold of `process_block` over `sha256_blocks`; every block has 64 bytes; concatenated they
are `data ‖ 0x80 ‖ zeros ‖ be64 (8·len)`, where `be64` is the 8-byte big-endian encoding; the
total length is the least multiple of 64 that is at least `len + 9`; after the `len / 64`
full data blocks come 2 blocks when `len mod 64 ≥ 56` and 1 block otherwise (so 55 and 64
give one padding block, 56 and 63 two, 65 one full block and one padding block). -/
theorem C12_padding_blocks (data : List Byte) (hlen : data.length < 2 ^ 61) :
    sha256_state data
        = (sha256_blocks data).foldl process_block
            [0x6a09e667, 0xbb67ae85, 0x3c6ef372, 0xa54ff53a,
             0x510e527f, 0x9b05688c, 0x1f83d9ab, 0x5be0cd19]
      ∧ (∀ b ∈ sha256_blocks data, b.length = 64)
      ∧ (sha256_blocks data).flatten
          = data ++ [0x80] ++ List.replicate (FIPS180.padZeros data.length) 0
              ++ FIPS180.be64 (8 * data.length)
      ∧ (FIPS180.be64 (8 * data.length)).length = 8
      ∧ (FIPS180.be64 (8 * data.length)).foldl (fun acc x => acc * 256 + x.val) 0
          = 8 * data.length
      ∧ (sha256_blocks data).flatten.length % 64 = 0
      ∧ data.length + 9 ≤ (sha256_blocks data).flatten.length
      ∧ (∀ m, m % 64 = 0 → data.length + 9 ≤ m → (sha256_blocks data).flatten.length ≤ m)
      ∧ (sha256_blocks data).length
          = data.length / 64 + (if data.length % 64 ≥ 56 then 2 else 1)
      ∧ (sha256_blocks data).take (data.length / 64)
          = (List.range (data.length / 64)).map (fun i => (data.drop (i*64)).take 64)
      ∧ (sha256_blocks (List.replicate 55 0)).length = 0 + 1
      ∧ (sha256_blocks (List.replicate 64 0)).length = 1 + 1
      ∧ (sha256_blocks (List.replicate 56 0)).length = 0 + 2
      ∧ (sha256_blocks (List.replicate 63 0)).length = 0 + 2
      ∧ (sha256_blocks (List.replicate 65 0)).length = 1 + 1 := by
  have hflat := sha256_blocks_flatten data
  rw [Nat.mod_eq_of_lt (by omega), Nat.mul_comm data.length 8] at hflat
  have hfl : (sha256_blocks data).flatten.length
      = data.length + 1 + FIPS180.padZeros data.length + 8 := by
    rw [hflat]
    simp only [List.length_append, List.length_replicate, List.length_singleton, be64_length]
  refine ⟨sha256_state_blocks data, sha256_blocks_block_length data, hflat, be64_length _,
    be64_value _ (by omega), ?_, ?_, ?_, sha256_blocks_length data, sha256_blocks_take data,
    ?_, ?_, ?_, ?_, ?_⟩
  · rw [hfl]; unfold FIPS180.padZeros; omega
  · rw [hfl]; omega
  · intro m hm hle
    rw [hfl]; unfold FIPS180.padZeros; omega
  · rw [sha256_blocks_length]; rfl
  · rw [sha256_blocks_length]; rfl
  · rw [sha256_blocks_length]; rfl
  · rw [sha256_blocks_length]; rfl
  · rw [sha256_blocks_length]; rfl

theorem C12_padding_blocks_witness :
    (List.replicate 56 (0 : Byte)).length < 2 ^ 61
      ∧ (sha256_blocks (List.replicate 56 0)).flatten
          = List.replicate 56 0 ++ [0x80]
              ++ List.replicate (FIPS180.padZeros (List.replicate 56 (0 : Byte)).length) 0
              ++ FIPS180.be64 (8 * (List.replicate 56 (0 : Byte)).length)
      ∧ (sha256_blocks (List.replicate 56 0)).length
          = (List.replicate 56 (0 : Byte)).length / 64
            + (if (List.replicate 56 (0 : Byte)).length % 64 ≥ 56 then 2 else 1) :=
  ⟨by decide, (C12_padding_blocks (List.replicate 56 0) (by decide)).2.2.1,
    (C12_padding_blocks (List.replicate 56 0) (by decide)).2.2.2.2.2.2.2.2.1⟩

/-- C13: an authenticator constructed with key `k` has `getKey() = k`, the empty sequence
when constructed without a key; after `setKey(k2)`, `getKey() = k2` whatever the previous key
was (replacement, not append; `setKey` of the empty sequence gives the unset state again);
the bytes are returned as stored, not hashed or padded. -/
theorem C13_key_round_trip (self : MicroSecurity_Obj) (k k2 : List Byte) :
    (MicroSecurity_Obj.new (some k)).getKey = k
      ∧ (MicroSecurity_Obj.new none).getKey = []
      ∧ (self.setKey k2).getKey = k2
      ∧ ((MicroSecurity_Obj.new (some k)).setKey k2).getKey = k2
      ∧ (self.setKey []).getKey = []
      ∧ self.setKey [] = MicroSecurity_Obj.new none
      ∧ ((self.setKey k).setKey k2) = self.setKey k2 :=
  ⟨rfl, rfl, rfl, rfl, rfl, rfl, rfl⟩

/-! ### Determinism, frame and buffer safety -/

theorem computeHMACTrunc_true (self : MicroSecurity_Obj) (seed out : Option (List Byte))
    (n : Nat) (h : (self.computeHMACTrunc seed out n).ret = true) :
    ∃ seedBytes outBuf, seed = some seedBytes ∧ out = some outBuf ∧ 1 ≤ n ∧ n ≤ 32
      ∧ self.m_key ≠ [] := by
  have hf := (computeHMACTrunc_ret self seed out n).not
  rw [h] at hf
  have hn := hf.mp (by decide)
  simp only [not_or] at hn
  obtain ⟨h1, h2, h3, h4, h5⟩ := hn
  obtain ⟨sb, hs⟩ := Option.ne_none_iff_exists'.mp h1
  obtain ⟨ob, ho⟩ := Option.ne_none_iff_exists'.mp h2
  exact ⟨sb, ob, hs, ho, by omega, by omega, h5⟩

theorem computeSHA256ConcatTrunc_true (self : MicroSecurity_Obj)
    (seed out : Option (List Byte)) (n : Nat) (extra : Option (List Byte))
    (h : (self.computeSHA256ConcatTrunc seed out n extra).ret = true) :
    ∃ seedBytes outBuf secret, seed = some seedBytes ∧ out = some outBuf ∧ 1 ≤ n ∧ n ≤ 32
      ∧ self.computeSHA256ConcatTrunc seed out n extra
        = { ret := true,
            out := some ((sha256_digest (seedBytes ++ secret)).take n ++ outBuf.drop n),
            key := self.m_key } := by
  have hf := (computeSHA256ConcatTrunc_ret self seed out n extra).not
  rw [h] at hf
  have hn := hf.mp (by decide)
  simp only [not_or, not_and] at hn
  obtain ⟨h1, h2, h3, h4, h5⟩ := hn
  obtain ⟨sb, hs⟩ := Option.ne_none_iff_exists'.mp h1
  obtain ⟨ob, ho⟩ := Option.ne_none_iff_exists'.mp h2
  subst hs ho
  by_cases he : extra = none ∨ extra = some []
  · exact ⟨sb, ob, self.m_key, rfl, rfl, by omega, by omega,
      computeSHA256ConcatTrunc_stored self sb ob n extra (by omega) (by omega) he (h5 he)⟩
  · simp only [not_or] at he
    obtain ⟨s, hs⟩ := Option.ne_none_iff_exists'.mp he.1
    subst hs
    have hne : s ≠ [] := fun hc => he.2 (by rw [hc])
    exact ⟨sb, ob, s, rfl, rfl, by omega, by omega,
      computeSHA256ConcatTrunc_extra self sb ob n s (by omega) (by omega) hne⟩

/-- C17: when `computeHMACTrunc` or `computeSHA256ConcatTrunc` returns true, the output
buffer was non-null and every byte at a position `≥ outTrunc` keeps its previous value; the
buffer keeps its length whenever it has at least `outTrunc` bytes, so a buffer of exactly
`outTrunc` bytes suffices. -/
theorem C17_output_frame (self : MicroSecurity_Obj) (seed out : Option (List Byte))
    (outTrunc : Nat) (extra : Option (List Byte)) :
    ((self.computeHMACTrunc seed out outTrunc).ret = true →
        ∃ outBuf res, out = some outBuf
          ∧ (self.computeHMACTrunc seed out outTrunc).out = some res
          ∧ res.drop outTrunc = outBuf.drop outTrunc
          ∧ (outTrunc ≤ outBuf.length → res.length = outBuf.length))
      ∧ ((self.computeSHA256ConcatTrunc seed out outTrunc extra).ret = true →
        ∃ outBuf res, out = some outBuf
          ∧ (self.computeSHA256ConcatTrunc seed out outTrunc extra).out = some res
          ∧ res.drop outTrunc = outBuf.drop outTrunc
          ∧ (outTrunc ≤ outBuf.length → res.length = outBuf.length)) := by
  have frame : ∀ (d outBuf : List Byte), d.length = 32 → outTrunc ≤ 32 →
      (d.take outTrunc ++ outBuf.drop outTrunc).drop outTrunc = outBuf.drop outTrunc
        ∧ (outTrunc ≤ outBuf.length →
            (d.take outTrunc ++ outBuf.drop outTrunc).length = outBuf.length) := by
    intro d outBuf hd hn
    have hl : (d.take outTrunc).length = outTrunc := by rw [List.length_take]; omega
    refine ⟨List.drop_left' hl, fun hle => ?_⟩
    rw [List.length_append, hl, List.length_drop]; omega
  refine ⟨fun h => ?_, fun h => ?_⟩
  · obtain ⟨sb, ob, hs, ho, h1, h32, hk⟩ := computeHMACTrunc_true self seed out outTrunc h
    subst hs ho
    rw [computeHMACTrunc_ok self sb ob outTrunc hk h1 h32]
    exact ⟨ob, _, rfl, rfl, frame _ ob (hmac_spec_length _ _) h32⟩
  · obtain ⟨sb, ob, secret, hs, ho, h1, h32, hr⟩ :=
      computeSHA256ConcatTrunc_true self seed out outTrunc extra h
    subst hs ho
    rw [hr]
    exact ⟨ob, _, rfl, rfl, frame _ ob (sha256_digest_length _) h32⟩

theorem C17_output_frame_witness :
    (∃ outBuf res, some (List.replicate 16 (7 : Byte)) = some outBuf
        ∧ ((MicroSecurity_Obj.mk [1]).computeHMACTrunc (some [0xAA])
            (some (List.replicate 16 7)) 16).out = some res
        ∧ res.drop 16 = outBuf.drop 16
        ∧ (16 ≤ outBuf.length → res.length = outBuf.length))
      ∧ (∃ outBuf res, some (List.replicate 16 (7 : Byte)) = some outBuf
        ∧ ((MicroSecurity_Obj.mk [1]).computeSHA256ConcatTrunc (some [0xAA])
            (some (List.replicate 16 7)) 16 none).out = some res
        ∧ res.drop 16 = outBuf.drop 16
        ∧ (16 ≤ outBuf.length → res.length = outBuf.length)) :=
  ⟨(C17_output_frame (MicroSecurity_Obj.mk [1]) (some [0xAA]) (some (List.replicate 16 7)) 16
      none).1 (by decide),
    (C17_output_frame (MicroSecurity_Obj.mk [1]) (some [0xAA]) (some (List.replicate 16 7)) 16
      none).2 (by decide)⟩

/-- C16: `sha256` and `hmac_sha256` leave the same 32 bytes whatever the output buffer held
before; a successful `computeHMACTrunc` or `computeSHA256ConcatTrunc` returns the same value
and leaves the same first `outTrunc` bytes whatever the output buffer held before; neither
changes the stored key, so an earlier call of either does not change what a later call
computes. -/
theorem C16_deterministic_stateless (self : MicroSecurity_Obj) (data key msg o1 o2 : List Byte)
    (seed : Option (List Byte)) (b1 b2 : List Byte) (outTrunc : Nat)
    (extra : Option (List Byte)) (seedE outE : Option (List Byte)) (outTruncE : Nat)
    (extraE : Option (List Byte)) (h1 : 32 ≤ o1.length) (h2 : 32 ≤ o2.length) :
    (sha256 data o1).take 32 = (sha256 data o2).take 32
      ∧ (hmac_sha256 key msg o1).take 32 = (hmac_sha256 key msg o2).take 32
      ∧ (self.computeHMACTrunc seed (some b1) outTrunc).ret
          = (self.computeHMACTrunc seed (some b2) outTrunc).ret
      ∧ ((self.computeHMACTrunc seed (some b1) outTrunc).ret = true →
          (self.computeHMACTrunc seed (some b1) outTrunc).out.map (List.take outTrunc)
            = (self.computeHMACTrunc seed (some b2) outTrunc).out.map (List.take outTrunc))
      ∧ (self.computeSHA256ConcatTrunc seed (some b1) outTrunc extra).ret
          = (self.computeSHA256ConcatTrunc seed (some b2) outTrunc extra).ret
      ∧ ((self.computeSHA256ConcatTrunc seed (some b1) outTrunc extra).ret = true →
          (self.computeSHA256ConcatTrunc seed (some b1) outTrunc extra).out.map
              (List.take outTrunc)
            = (self.computeSHA256ConcatTrunc seed (some b2) outTrunc extra).out.map
              (List.take outTrunc))
      ∧ (self.computeHMACTrunc seedE outE outTruncE).key = self.m_key
      ∧ (self.computeSHA256ConcatTrunc seedE outE outTruncE extraE).key = self.m_key
      ∧ (MicroSecurity_Obj.mk (self.computeHMACTrunc seedE outE outTruncE).key).computeHMACTrunc
            seed (some b1) outTrunc
          = self.computeHMACTrunc seed (some b1) outTrunc
      ∧ (MicroSecurity_Obj.mk (self.computeSHA256ConcatTrunc seedE outE outTruncE extraE).key
            ).computeSHA256ConcatTrunc seed (some b1) outTrunc extra
          = self.computeSHA256ConcatTrunc seed (some b1) outTrunc extra := by
  have hretH : ∀ b : List Byte, (self.computeHMACTrunc seed (some b) outTrunc).ret = false
      ↔ (seed = none ∨ outTrunc = 0 ∨ outTrunc > 32 ∨ self.m_key = []) := by
    intro b
    rw [computeHMACTrunc_ret]
    simp
  have hretC : ∀ b : List Byte,
      (self.computeSHA256ConcatTrunc seed (some b) outTrunc extra).ret = false
      ↔ (seed = none ∨ outTrunc = 0 ∨ outTrunc > 32
          ∨ ((extra = none ∨ extra = some []) ∧ self.m_key = [])) := by
    intro b
    rw [computeSHA256ConcatTrunc_ret]
    simp
  refine ⟨?_, ?_, ?_, ?_, ?_, ?_, computeHMACTrunc_key _ _ _ _,
    computeSHA256ConcatTrunc_key _ _ _ _ _, ?_, ?_⟩
  · unfold sha256
    rw [sha256_internal_frame _ _ h1, sha256_internal_frame _ _ h2,
      List.take_left' (sha256_digest_length data), List.take_left' (sha256_digest_length data)]
  · rw [hmac_sha256_eq _ _ _ h1, hmac_sha256_eq _ _ _ h2,
      List.take_left' (hmac_spec_length key msg), List.take_left' (hmac_spec_length key msg)]
  · have := (hretH b1).trans (hretH b2).symm
    cases hA : (self.computeHMACTrunc seed (some b1) outTrunc).ret <;>
      cases hB : (self.computeHMACTrunc seed (some b2) outTrunc).ret <;> simp_all
  · intro h
    obtain ⟨sb, ob, hs, _, hn1, hn32, hk⟩ := computeHMACTrunc_true self seed _ outTrunc h
    subst hs
    rw [computeHMACTrunc_ok self sb b1 outTrunc hk hn1 hn32,
      computeHMACTrunc_ok self sb b2 outTrunc hk hn1 hn32]
    simp only [Option.map_some']
    rw [take_take_append _ _ _ (by rw [hmac_spec_length]; exact hn32),
      take_take_append _ _ _ (by rw [hmac_spec_length]; exact hn32)]
  · have := (hretC b1).trans (hretC b2).symm
    cases hA : (self.computeSHA256ConcatTrunc seed (some b1) outTrunc extra).ret <;>
      cases hB : (self.computeSHA256ConcatTrunc seed (some b2) outTrunc extra).ret <;> simp_all
  · intro h
    have hB : (self.computeSHA256ConcatTrunc seed (some b2) outTrunc extra).ret = true := by
      have := (hretC b1).trans (hretC b2).symm
      cases hB : (self.computeSHA256ConcatTrunc seed (some b2) outTrunc extra).ret
      · rw [this.mpr hB] at h; exact absurd h (by decide)
      · rfl
    obtain ⟨sb, ob, secret, hs, ho, hn1, hn32, hr⟩ :=
      computeSHA256ConcatTrunc_true self seed _ outTrunc extra h
    obtain ⟨sb2, ob2, secret2, hs2, ho2, _, _, hr2⟩ :=
      computeSHA256ConcatTrunc_true self seed _ outTrunc extra hB
    subst hs
    cases hs2
    cases ho
    cases ho2
    by_cases he : extra = none ∨ extra = some []
    · have hk : self.m_key ≠ [] := by
        intro hk
        have := (hretC b1).mpr (Or.inr (Or.inr (Or.inr ⟨he, hk⟩)))
        rw [this] at h; exact absurd h (by decide)
      rw [computeSHA256ConcatTrunc_stored self sb b1 outTrunc extra hn1 hn32 he hk,
        computeSHA256ConcatTrunc_stored self sb b2 outTrunc extra hn1 hn32 he hk]
      simp only [Option.map_some']
      rw [take_take_append _ _ _ (by rw [sha256_digest_length]; exact hn32),
        take_take_append _ _ _ (by rw [sha256_digest_length]; exact hn32)]
    · simp only [not_or] at he
      obtain ⟨s, hs⟩ := Option.ne_none_iff_exists'.mp he.1
      subst hs
      have hne : s ≠ [] := fun hc => he.2 (by rw [hc])
      rw [computeSHA256ConcatTrunc_extra self sb b1 outTrunc s hn1 hn32 hne,
        computeSHA256ConcatTrunc_extra self sb b2 outTrunc s hn1 hn32 hne]
      simp only [Option.map_some']
      rw [take_take_append _ _ _ (by rw [sha256_digest_length]; exact hn32),
        take_take_append _ _ _ (by rw [sha256_digest_length]; exact hn32)]
  · rw [computeHMACTrunc_key]
  · rw [computeSHA256ConcatTrunc_key]

theorem C16_deterministic_stateless_witness :
    32 ≤ (List.replicate 32 (0 : Byte)).length ∧ 32 ≤ (List.replicate 40 (9 : Byte)).length
      ∧ (sha256 [0x61] (List.replicate 32 0)).take 32
          = (sha256 [0x61] (List.replicate 40 9)).take 32
      ∧ (hmac_sha256 [0x0b] [0x61] (List.replicate 32 0)).take 32
          = (hmac_sha256 [0x0b] [0x61] (List.replicate 40 9)).take 32 :=
  ⟨by decide, by decide,
    (C16_deterministic_stateless (MicroSecurity_Obj.mk [1]) [0x61] [0x0b] [0x61]
      (List.replicate 32 0) (List.replicate 40 9) (some [0xAA]) [] [] 16 none none none 0 none
      (by decide) (by decide)).1,
    (C16_deterministic_stateless (MicroSecurity_Obj.mk [1]) [0x61] [0x0b] [0x61]
      (List.replicate 32 0) (List.replicate 40 9) (some [0xAA]) [] [] 16 none none none 0 none
      (by decide) (by decide)).2.1⟩

/-- C18: for every input, with `rem = len mod 64` and the length field at `off = 120` when
`rem ≥ 56` and `off = 56` otherwise: the scratch buffer keeps its 128 bytes; the remainder
copy reads `data[len - rem .. len)` and writes `last[0 .. rem)`; the marker index `rem` is at
most 63 and below `off`, and `off + 8 ≤ 128`; afterwards `last[0 .. rem)` still holds the
remainder, `last[rem]` is `0x80`, every byte strictly between the marker and the length
field is zero, the length field holds the big-endian bit length, and in the one-block
branch the second half of the buffer is zero. -/
theorem C18_padding_buffer_safety (data : List Byte) :
    (lastBuf data).length = 128
      ∧ data.length / 64 * 64 + data.length % 64 = data.length
      ∧ data.length % 64 ≤ 63
      ∧ data.length % 64 < (if data.length % 64 ≥ 56 then 120 else 56)
      ∧ (if data.length % 64 ≥ 56 then 120 else 56) + 8 ≤ 128
      ∧ (data.length % 64 ≥ 56 → data.length % 64 ≤ 63 ∧ 63 < 120)
      ∧ (¬ data.length % 64 ≥ 56 → data.length % 64 ≤ 55 ∧ 55 < 56)
      ∧ (∀ i, i < data.length % 64 →
          (lastBuf data).getD i 0 = data.getD (data.length / 64 * 64 + i) 0)
      ∧ (lastBuf data).getD (data.length % 64) 0 = 0x80
      ∧ (∀ i, data.length % 64 < i → i < (if data.length % 64 ≥ 56 then 120 else 56) →
          (lastBuf data).getD i 0 = 0)
      ∧ ((lastBuf data).drop (if data.length % 64 ≥ 56 then 120 else 56)).take 8
          = FIPS180.be64 (data.length * 8 % 2 ^ 64)
      ∧ (¬ data.length % 64 ≥ 56 → ∀ i, 64 ≤ i → i < 128 → (lastBuf data).getD i 0 = 0) := by
  have htl : (data.drop (data.length / 64 * 64)).length = data.length % 64 := by
    rw [List.length_drop]; omega
  have hr : data.length % 64 < 64 := Nat.mod_lt _ (by decide)
  have hL := lastBuf_layout data
  obtain ⟨f1, f2, f3, f4, f5⟩ := layout_facts (data.drop (data.length / 64 * 64))
    (FIPS180.be64 (data.length * 8 % 2 ^ 64))
    (List.replicate (if data.length % 64 ≥ 56 then 0 else 64) 0) 0x80 (data.length % 64)
    ((if data.length % 64 ≥ 56 then 119 else 55) - data.length % 64) htl (be64_length _)
  rw [← hL] at f1 f2 f3 f4 f5
  have hoff : data.length % 64 + 1 + ((if data.length % 64 ≥ 56 then 119 else 55)
      - data.length % 64) = (if data.length % 64 ≥ 56 then 120 else 56) := by
    split <;> omega
  rw [hoff] at f3 f4 f5
  refine ⟨lastBuf_length data, by omega, by omega, by split <;> omega, by split <;> omega,
    fun h => ⟨by omega, by decide⟩, fun h => ⟨by omega, by decide⟩, ?_, f2, f3, f4, ?_⟩
  · intro i hi
    rw [f1 i hi, List.getD_eq_getElem?_getD, List.getD_eq_getElem?_getD, List.getElem?_drop]
  · intro h56 i h64 h128
    have := f5 i (by rw [if_neg h56]; omega) (by rw [if_neg h56, if_neg h56]; simp; omega)
    simp only [h56, if_false] at this
    rw [this, List.getD_eq_getElem?_getD, List.getElem?_replicate, if_pos (by omega)]
    rfl

theorem C18_padding_buffer_safety_witness :
    (lastBuf [1, 2, 3]).getD 3 0 = 0x80 ∧ (lastBuf [1, 2, 3]).getD 4 0 = 0
      ∧ (lastBuf [1, 2, 3]).getD 100 0 = 0 :=
  ⟨(C18_padding_buffer_safety [1, 2, 3]).2.2.2.2.2.2.2.2.1,
    (C18_padding_buffer_safety [1, 2, 3]).2.2.2.2.2.2.2.2.2.1 4 (by decide) (by decide),
    (C18_padding_buffer_safety [1, 2, 3]).2.2.2.2.2.2.2.2.2.2.2 (by decide) 100 (by decide)
      (by decide)⟩

/-! ### Relations between keys, seeds and secrets -/

theorem keyBlock_trailing_zeros (key : List Byte) (j : Nat) (hj : key.length + j ≤ 64) :
    keyBlock (key ++ List.replicate j 0) = keyBlock key := by
  unfold keyBlock
  rw [if_pos (by simp; omega), if_pos (by omega), List.append_assoc, ← List.replicate_add]
  congr 2
  simp
  omega

/-- C19, as amended: for every key of at most 64 bytes, every `j` with `len(key) + j ≤ 64`
and every message, `hmac_sha256(key ‖ 0^j, msg) = hmac_sha256(key, msg)`; consequently
`computeHMACTrunc` returns the same value and leaves the same output for two non-empty
stored keys that differ only by trailing zero bytes within 64 bytes. -/
theorem C19_trailing_zero_key (key msg out32 : List Byte) (j : Nat)
    (hj : key.length + j ≤ 64) :
    hmac_sha256 (key ++ List.replicate j 0) msg out32 = hmac_sha256 key msg out32
      ∧ (key ≠ [] → ∀ (seed out : Option (List Byte)) (outTrunc : Nat),
          ((MicroSecurity_Obj.mk (key ++ List.replicate j 0)).computeHMACTrunc seed out
              outTrunc).ret
            = ((MicroSecurity_Obj.mk key).computeHMACTrunc seed out outTrunc).ret
          ∧ ((MicroSecurity_Obj.mk (key ++ List.replicate j 0)).computeHMACTrunc seed out
              outTrunc).out
            = ((MicroSecurity_Obj.mk key).computeHMACTrunc seed out outTrunc).out) := by
  have hkb := keyBlock_trailing_zeros key j hj
  refine ⟨hmac_sha256_congr _ _ _ _ hkb, ?_⟩
  intro hne seed out outTrunc
  have hne2 : key ++ List.replicate j 0 ≠ [] := by
    intro h
    exact hne (List.append_eq_nil.mp h).1
  unfold MicroSecurity_Obj.computeHMACTrunc
  cases seed <;> cases out <;> simp only [and_self]
  split
  · exact ⟨rfl, rfl⟩
  · rw [if_neg (by simpa using hne2), if_neg (by simpa using hne),
      hmac_sha256_congr _ _ _ _ hkb]
    exact ⟨rfl, rfl⟩

theorem C19_trailing_zero_key_witness :
    ([0x11, 0x22] : List Byte).length + 3 ≤ 64
      ∧ hmac_sha256 ([0x11, 0x22] ++ List.replicate 3 0) [0xAA] (List.replicate 32 0)
        = hmac_sha256 [0x11, 0x22] [0xAA] (List.replicate 32 0)
      ∧ ((MicroSecurity_Obj.mk ([0x11, 0x22] ++ List.replicate 3 0)).computeHMACTrunc
            (some [0xAA]) (some (List.replicate 16 0)) 16).out
        = ((MicroSecurity_Obj.mk [0x11, 0x22]).computeHMACTrunc
            (some [0xAA]) (some (List.replicate 16 0)) 16).out :=
  ⟨by decide, (C19_trailing_zero_key [0x11, 0x22] [0xAA] (List.replicate 32 0) 3 (by decide)).1,
    ((C19_trailing_zero_key [0x11, 0x22] [0xAA] (List.replicate 32 0) 3 (by decide)).2
      (by decide) (some [0xAA]) (some (List.replicate 16 0)) 16).2⟩

/-- C19, the claim as stated fails for the empty stored key: the stored keys `[]` and
`[] ‖ 0^1` differ only by a trailing zero byte, yet `computeHMACTrunc` returns false and
leaves the output buffer as it was for the first, and returns true and writes the first 32
bytes of the HMAC for the second. -/
theorem C19_empty_key_counterexample :
    ([] : List Byte).length + 1 ≤ 64
      ∧ ((MicroSecurity_Obj.mk []).computeHMACTrunc (some [0xAA])
          (some (List.replicate 32 0)) 32).ret = false
      ∧ ((MicroSecurity_Obj.mk ([] ++ List.replicate 1 0)).computeHMACTrunc (some [0xAA])
          (some (List.replicate 32 0)) 32).ret = true
      ∧ ((MicroSecurity_Obj.mk []).computeHMACTrunc (some [0xAA])
          (some (List.replicate 32 0)) 32).out = some (List.replicate 32 0)
      ∧ ((MicroSecurity_Obj.mk ([] ++ List.replicate 1 0)).computeHMACTrunc (some [0xAA])
          (some (List.replicate 32 0)) 32).out
        = some [0x63,0x7b,0xab,0xb8,0x88,0x8f,0xe9,0x0d,0x01,0x3a,0x05,0x05,0x71,0x79,0xd1,0xfa,
                0xf1,0x27,0x96,0x3a,0xd1,0x8b,0x78,0x7c,0xbc,0x5e,0x6f,0x3e,0x83,0x05,0x8c,0xee]
      ∧ ¬ (∀ (key : List Byte) (j : Nat), key.length + j ≤ 64 →
          ∀ (seed out : Option (List Byte)) (outTrunc : Nat),
            ((MicroSecurity_Obj.mk (key ++ List.replicate j 0)).computeHMACTrunc seed out
                outTrunc).ret
              = ((MicroSecurity_Obj.mk key).computeHMACTrunc seed out outTrunc).ret) := by
  refine ⟨by decide, by decide, by decide, by decide, by decide!, ?_⟩
  intro h
  have := h [] 1 (by decide) (some [0xAA]) (some (List.replicate 32 0)) 32
  exact absurd this (by decide)

/-- C20: for seeds and non-empty secrets with `seed1 ‖ secret1 = seed2 ‖ secret2`,
`computeSHA256ConcatTrunc` returns the same value and leaves the same output for every
`outTrunc` in `1..32`, whether the secret is passed explicitly or is the stored key; moving
the last byte of the seed to the front of the secret does not change the result. -/
theorem C20_concat_boundary (self1 self2 : MicroSecurity_Obj)
    (seed1 secret1 seed2 secret2 outBuf : List Byte) (outTrunc : Nat)
    (hs1 : secret1 ≠ []) (hs2 : secret2 ≠ []) (heq : seed1 ++ secret1 = seed2 ++ secret2)
    (h1 : 1 ≤ outTrunc) (h32 : outTrunc ≤ 32) :
    ((self1.computeSHA256ConcatTrunc (some seed1) (some outBuf) outTrunc (some secret1)).ret
        = (self2.computeSHA256ConcatTrunc (some seed2) (some outBuf) outTrunc (some secret2)).ret
      ∧ (self1.computeSHA256ConcatTrunc (some seed1) (some outBuf) outTrunc (some secret1)).out
        = (self2.computeSHA256ConcatTrunc (some seed2) (some outBuf) outTrunc
            (some secret2)).out)
      ∧ (((MicroSecurity_Obj.mk secret1).computeSHA256ConcatTrunc (some seed1) (some outBuf)
            outTrunc none).ret
        = ((MicroSecurity_Obj.mk secret2).computeSHA256ConcatTrunc (some seed2) (some outBuf)
            outTrunc none).ret
      ∧ ((MicroSecurity_Obj.mk secret1).computeSHA256ConcatTrunc (some seed1) (some outBuf)
            outTrunc none).out
        = ((MicroSecurity_Obj.mk secret2).computeSHA256ConcatTrunc (some seed2) (some outBuf)
            outTrunc none).out)
      ∧ (∀ (s : List Byte) (b : Byte),
          (self1.computeSHA256ConcatTrunc (some (s ++ [b])) (some outBuf) outTrunc
              (some secret1)).out
            = (self1.computeSHA256ConcatTrunc (some s) (some outBuf) outTrunc
              (some (b :: secret1))).out) := by
  refine ⟨?_, ?_, ?_⟩
  · rw [computeSHA256ConcatTrunc_extra self1 seed1 outBuf outTrunc secret1 h1 h32 hs1,
      computeSHA256ConcatTrunc_extra self2 seed2 outBuf outTrunc secret2 h1 h32 hs2, heq]
    exact ⟨rfl, rfl⟩
  · rw [computeSHA256ConcatTrunc_stored (MicroSecurity_Obj.mk secret1) seed1 outBuf outTrunc
        none h1 h32 (Or.inl rfl) hs1,
      computeSHA256ConcatTrunc_stored (MicroSecurity_Obj.mk secret2) seed2 outBuf outTrunc
        none h1 h32 (Or.inl rfl) hs2]
    simp only [heq, and_self]
  · intro s b
    rw [computeSHA256ConcatTrunc_extra self1 (s ++ [b]) outBuf outTrunc secret1 h1 h32 hs1,
      computeSHA256ConcatTrunc_extra self1 s outBuf outTrunc (b :: secret1) h1 h32
        (List.cons_ne_nil _ _)]
    simp

theorem C20_concat_boundary_witness :
    ([0x03] : List Byte) ≠ [] ∧ ([0x02, 0x03] : List Byte) ≠ []
      ∧ ([0x01, 0x02] ++ [0x03] : List Byte) = [0x01] ++ [0x02, 0x03] ∧ 1 ≤ 32 ∧ 32 ≤ 32
      ∧ ((MicroSecurity_Obj.mk []).computeSHA256ConcatTrunc (some [0x01, 0x02])
            (some (List.replicate 32 0)) 32 (some [0x03])).out
        = ((MicroSecurity_Obj.mk [9]).computeSHA256ConcatTrunc (some [0x01])
            (some (List.replicate 32 0)) 32 (some [0x02, 0x03])).out :=
  ⟨by decide, by decide, by decide, by decide, by decide,
    (C20_concat_boundary (MicroSecurity_Obj.mk []) (MicroSecurity_Obj.mk [9]) [0x01, 0x02]
      [0x03] [0x01] [0x02, 0x03] (List.replicate 32 0) 32 (by decide) (by decide) (by decide)
      (by decide) (by decide)).1.2⟩

/-! ### The code against the reference definitions -/

theorem sha256_digest_fips (data : List Byte) (h : data.length < 2 ^ 61) :
    FIPS180.SHA256 data = some (sha256_digest data) := by
  have := (sha256_internal_eq data (List.replicate 32 0) (by omega) (by simp)).1
  rw [sha256_internal_zero, List.take_of_length_le (by rw [sha256_digest_length])] at this
  exact this

theorem K0_eq_keyBlock (key : List Byte) (hk : key.length < 2 ^ 61) :
    RFC2104.K0 key = some (keyBlock key) := by
  unfold RFC2104.K0 keyBlock
  by_cases h : key.length > 64
  · rw [if_pos h, if_neg (by omega), sha256_digest_fips key hk]
    simp [sha256_digest_length]
  · rw [if_neg h, if_pos (by omega)]
    rfl

/-- For keys and messages of realistic size `hmac_sha256` computes the HMAC of RFC 2104 over
the SHA-256 of FIPS 180-4. -/
theorem hmac_spec_rfc2104 (key msg : List Byte) (hk : key.length < 2 ^ 61)
    (hm : msg.length + 64 < 2 ^ 61) : RFC2104.HMAC key msg = some (hmac_spec key msg) := by
  unfold RFC2104.HMAC hmac_spec
  rw [K0_eq_keyBlock key hk]
  simp only [Option.some_bind]
  rw [sha256_digest_fips _ (by simp [keyBlock_length]; omega)]
  simp only [Option.some_bind]
  rw [sha256_digest_fips _ (by simp [keyBlock_length, sha256_digest_length])]

end microsec

/-! ## Checks of the reference definitions -/

namespace FIPS180

open microsec (Byte)

/-- The number of zero bytes is the least solution of `len + 1 + z ≡ 56 (mod 64)`. -/
theorem padZeros_least (len : Nat) :
    (len + 1 + padZeros len) % 64 = 56 ∧ ∀ z, (len + 1 + z) % 64 = 56 → padZeros len ≤ z := by
  unfold padZeros
  refine ⟨by omega, fun z hz => by omega⟩

/-- The padded message is a whole number of 64-byte blocks. -/
theorem pad_length_mod (M : List Byte) : (pad M).length % 64 = 0 := by
  simp only [pad, padZeros, be64, List.length_append, List.length_map, List.length_range,
    List.length_replicate, List.length_singleton]
  omega

/-- For each of the sixty-four primes `p`, `iroot 3 36 (p * 2^96)` is the integer part of
`2^32` times the cube root of `p`, so `K_t` is the first 32 bits of its fractional part. -/
theorem K_cube_roots : ∀ t, t < 64 →
    iroot 3 36 (primes64.getD t 0 * 2 ^ 96) ^ 3 ≤ primes64.getD t 0 * 2 ^ 96
      ∧ primes64.getD t 0 * 2 ^ 96 < (iroot 3 36 (primes64.getD t 0 * 2 ^ 96) + 1) ^ 3
      ∧ K.getD t 0 = iroot 3 36 (primes64.getD t 0 * 2 ^ 96) % 2 ^ 32 := by
  decide!

/-- For each of the first eight primes `p`, `iroot 2 36 (p * 2^64)` is the integer part of
`2^32` times the square root of `p`. -/
theorem H0_square_roots : ∀ t, t < 8 →
    iroot 2 36 (primes64.getD t 0 * 2 ^ 64) ^ 2 ≤ primes64.getD t 0 * 2 ^ 64
      ∧ primes64.getD t 0 * 2 ^ 64 < (iroot 2 36 (primes64.getD t 0 * 2 ^ 64) + 1) ^ 2
      ∧ H0.getD t 0 = iroot 2 36 (primes64.getD t 0 * 2 ^ 64) % 2 ^ 32 := by
  decide!

/-- The examples of the standard: the one-block message "abc" and the two-block message
"abcdbcdecdefdefgefghfghighijhijkijkljklmklmnlmnomnopnopq". -/
theorem SHA256_examples :
    SHA256 [0x61, 0x62, 0x63]
        = some [0xba,0x78,0x16,0xbf,0x8f,0x01,0xcf,0xea,0x41,0x41,0x40,0xde,0x5d,0xae,0x22,0x23,
                0xb0,0x03,0x61,0xa3,0x96,0x17,0x7a,0x9c,0xb4,0x10,0xff,0x61,0xf2,0x00,0x15,0xad]
      ∧ SHA256 [0x61,0x62,0x63,0x64,0x62,0x63,0x64,0x65,0x63,0x64,0x65,0x66,0x64,0x65,0x66,0x67,
                0x65,0x66,0x67,0x68,0x66,0x67,0x68,0x69,0x67,0x68,0x69,0x6a,0x68,0x69,0x6a,0x6b,
                0x69,0x6a,0x6b,0x6c,0x6a,0x6b,0x6c,0x6d,0x6b,0x6c,0x6d,0x6e,0x6c,0x6d,0x6e,0x6f,
                0x6d,0x6e,0x6f,0x70,0x6e,0x6f,0x70,0x71]
        = some [0x24,0x8d,0x6a,0x61,0xd2,0x06,0x38,0xb8,0xe5,0xc0,0x26,0x93,0x0c,0x3e,0x60,0x39,
                0xa3,0x3c,0xe4,0x59,0x64,0xff,0x21,0x67,0xf6,0xec,0xed,0xd4,0x19,0xdb,0x06,0xc1] := by
  refine ⟨?_, ?_⟩
  · decide!
  · decide!

end FIPS180

/-! ## The callback `ZLGKey` -/

theorem g_Key_ne_nil : (microsec.MicroSecurity_Obj.new (some g_Key)).m_key ≠ [] := by
  decide

theorem ZLGKey_valid (seed keyBuf : List microsec.Byte) (securityLevel : Nat)
    (variantName : Option String) (len0 : Nat) (hseed : seed ≠ []) :
    ZLGKey (some seed) securityLevel variantName (some keyBuf) (some len0)
      = if securityLevel = 0x11 then
          { ret := 0,
            keyArray := some ((microsec.hmac_spec g_Key seed).take 16 ++ keyBuf.drop 16),
            keyLength := some 16 }
        else if securityLevel = 0x71 then
          { ret := 0,
            keyArray := some ((microsec.sha256_digest (seed ++ g_Key)).take 32
              ++ keyBuf.drop 32),
            keyLength := some 32 }
        else { ret := -2, keyArray := some keyBuf, keyLength := some len0 } := by
  unfold ZLGKey
  simp only []
  rw [if_neg (by simpa using hseed)]
  simp only [microsec.SecLevel_1, microsec.SecLevel_2]
  rw [microsec.computeHMACTrunc_ok _ seed keyBuf 16 g_Key_ne_nil (by decide) (by decide),
    microsec.computeSHA256ConcatTrunc_stored _ seed keyBuf 32 none (by decide) (by decide)
      (Or.inl rfl) g_Key_ne_nil]
  simp only [Bool.not_true, if_false]
  rfl

theorem ZLGKey_invalid (seedArray : Option (List microsec.Byte)) (securityLevel : Nat)
    (variantName : Option String) (keyArray : Option (List microsec.Byte))
    (keyLength : Option Nat)
    (h : seedArray = none ∨ seedArray = some [] ∨ keyArray = none ∨ keyLength = none) :
    ZLGKey seedArray securityLevel variantName keyArray keyLength
      = { ret := -1, keyArray := keyArray, keyLength := keyLength } := by
  unfold ZLGKey
  rcases seedArray with _ | seed <;> rcases keyArray with _ | kb <;>
    rcases keyLength with _ | l0 <;> simp only []
  have hs : seed = [] := by simpa using h
  subst hs
  rfl

theorem ZLGKey_args (seedArray : Option (List microsec.Byte))
    (keyArray : Option (List microsec.Byte)) (keyLength : Option Nat)
    (h : ¬ (seedArray = none ∨ seedArray = some [] ∨ keyArray = none ∨ keyLength = none)) :
    ∃ seed keyBuf len0, seedArray = some seed ∧ seed ≠ [] ∧ keyArray = some keyBuf
      ∧ keyLength = some len0 := by
  simp only [not_or] at h
  obtain ⟨h1, h2, h3, h4⟩ := h
  obtain ⟨seed, hs⟩ := Option.ne_none_iff_exists'.mp h1
  obtain ⟨kb, hk⟩ := Option.ne_none_iff_exists'.mp h3
  obtain ⟨l0, hl⟩ := Option.ne_none_iff_exists'.mp h4
  subst hs hk hl
  exact ⟨seed, kb, l0, rfl, fun hc => h2 (by rw [hc]), rfl, rfl⟩

/-- C14: for a non-null `seedArray` of `seedLength ≥ 1` bytes (`seedLength` is a
`uint16_t`) and non-null `keyArray` and `keyLength`: with `securityLevel = 0x11`, `ZLGKey`
returns 0, sets `*keyLength = 16` and writes the first 16 bytes of HMAC-SHA256 of the seed
under the fixed key to `keyArray[0..16)`; with `securityLevel = 0x71` it returns 0, sets
`*keyLength = 32` and writes `sha256(seed ‖ fixed key)` to `keyArray[0..32)`; the status -3
is never returned, and the result does not depend on `variantName`. -/
theorem C14_ZLGKey_success (seed keyBuf : List microsec.Byte) (variantName : Option String)
    (len0 : Nat) (hseed : 1 ≤ seed.length) (h16 : seed.length < 2 ^ 16) :
    ZLGKey (some seed) 0x11 variantName (some keyBuf) (some len0)
        = { ret := 0,
            keyArray := some ((microsec.hmac_sha256 g_Key seed (List.replicate 32 0)).take 16
              ++ keyBuf.drop 16),
            keyLength := some 16 }
      ∧ RFC2104.HMAC g_Key seed = some (microsec.hmac_sha256 g_Key seed (List.replicate 32 0))
      ∧ g_Key = [0x12, 0x34, 0x56, 0x78, 0x9A, 0xBC, 0xDE, 0xF0,
                 0x11, 0x22, 0x33, 0x44, 0x55, 0x66, 0x77, 0x88]
      ∧ ZLGKey (some seed) 0x71 variantName (some keyBuf) (some len0)
        = { ret := 0,
            keyArray := some (microsec.sha256 (seed ++ g_Key) (List.replicate 32 0)
              ++ keyBuf.drop 32),
            keyLength := some 32 }
      ∧ FIPS180.SHA256 (seed ++ g_Key)
        = some (microsec.sha256 (seed ++ g_Key) (List.replicate 32 0))
      ∧ (microsec.sha256 (seed ++ g_Key) (List.replicate 32 0)).length = 32
      ∧ (∀ (seedArray keyArray : Option (List microsec.Byte)) (securityLevel : Nat)
          (keyLength : Option Nat),
          (ZLGKey seedArray securityLevel variantName keyArray keyLength).ret ≠ -3)
      ∧ (∀ (seedArray keyArray : Option (List microsec.Byte)) (securityLevel : Nat)
          (keyLength : Option Nat) (otherName : Option String),
          ZLGKey seedArray securityLevel otherName keyArray keyLength
            = ZLGKey seedArray securityLevel variantName keyArray keyLength) := by
  have hne : seed ≠ [] := by
    intro h; rw [h] at hseed; exact absurd hseed (by decide)
  have hgl : g_Key.length = 16 := rfl
  have hd : microsec.sha256 (seed ++ g_Key) (List.replicate 32 0)
      = microsec.sha256_digest (seed ++ g_Key) := rfl
  have never : ∀ (seedArray keyArray : Option (List microsec.Byte)) (securityLevel : Nat)
      (v : Option String) (keyLength : Option Nat),
      ZLGKey seedArray securityLevel v keyArray keyLength
        = { ret := -1, keyArray := keyArray, keyLength := keyLength }
      ∨ ∃ seed keyBuf len0, seed ≠ [] ∧
          ZLGKey seedArray securityLevel v keyArray keyLength
            = ZLGKey (some seed) securityLevel none (some keyBuf) (some len0) := by
    intro sA kA lvl v kL
    by_cases hinv : sA = none ∨ sA = some [] ∨ kA = none ∨ kL = none
    · exact Or.inl (ZLGKey_invalid sA lvl v kA kL hinv)
    · obtain ⟨s, kb, l0, hs, hsn, hk, hl⟩ := ZLGKey_args sA kA kL hinv
      subst hs hk hl
      exact Or.inr ⟨s, kb, l0, hsn, by rw [ZLGKey_valid _ _ _ _ _ hsn, ZLGKey_valid _ _ _ _ _ hsn]⟩
  refine ⟨?_, ?_, rfl, ?_, ?_, microsec.sha256_digest_length _, ?_, ?_⟩
  · rw [ZLGKey_valid _ _ _ _ _ hne, if_pos rfl, microsec.hmac_sha256_zero]
  · rw [microsec.hmac_sha256_zero]
    exact microsec.hmac_spec_rfc2104 g_Key seed (by rw [hgl]; decide) (by omega)
  · rw [ZLGKey_valid _ _ _ _ _ hne, if_neg (by decide), if_pos rfl, hd,
      List.take_of_length_le (by rw [microsec.sha256_digest_length])]
  · rw [hd]
    exact microsec.sha256_digest_fips _ (by rw [List.length_append, hgl]; omega)
  · intro sA kA lvl kL
    rcases never sA kA lvl variantName kL with h | ⟨s, kb, l0, hsn, h⟩
    · rw [h]; simp
    · rw [h, ZLGKey_valid _ _ _ _ _ hsn]
      split
      · simp
      · split <;> simp
  · intro sA kA lvl kL other
    by_cases hinv : sA = none ∨ sA = some [] ∨ kA = none ∨ kL = none
    · rw [ZLGKey_invalid sA lvl other kA kL hinv, ZLGKey_invalid sA lvl variantName kA kL hinv]
    · obtain ⟨s, kb, l0, hs, hsn, hk, hl⟩ := ZLGKey_args sA kA kL hinv
      subst hs hk hl
      rw [ZLGKey_valid _ _ _ _ _ hsn, ZLGKey_valid _ _ _ _ _ hsn]

theorem C14_ZLGKey_success_witness :
    1 ≤ ([0xAA, 0xBB, 0xCC] : List microsec.Byte).length
      ∧ ([0xAA, 0xBB, 0xCC] : List microsec.Byte).length < 2 ^ 16
      ∧ ZLGKey (some [0xAA, 0xBB, 0xCC]) 0x11 none (some (List.replicate 32 0)) (some 0)
        = { ret := 0,
            keyArray := some ((microsec.hmac_sha256 g_Key [0xAA, 0xBB, 0xCC]
              (List.replicate 32 0)).take 16 ++ (List.replicate 32 (0 : microsec.Byte)).drop 16),
            keyLength := some 16 } :=
  ⟨by decide, by decide,
    (C14_ZLGKey_success [0xAA, 0xBB, 0xCC] (List.replicate 32 0) none 0 (by decide)
      (by decide)).1⟩

/-- C15: `ZLGKey` returns -1 if and only if `seedArray` is null, `seedLength` is 0,
`keyArray` is null or `keyLength` is null, whatever the security level; otherwise it returns
-2 if and only if `securityLevel` is neither `0x11` nor `0x71` (so for `0xD1`, `SecLevel_3`);
it returns 0 exactly when neither holds; and whenever it returns -1 or -2 neither `keyArray`
nor `*keyLength` is written. -/
theorem C15_ZLGKey_error_codes (seedArray keyArray : Option (List microsec.Byte))
    (securityLevel : Nat) (variantName : Option String) (keyLength : Option Nat) :
    ((ZLGKey seedArray securityLevel variantName keyArray keyLength).ret = -1
        ↔ (seedArray = none ∨ seedArray = some [] ∨ keyArray = none ∨ keyLength = none))
      ∧ ((ZLGKey seedArray securityLevel variantName keyArray keyLength).ret = -2
        ↔ (¬ (seedArray = none ∨ seedArray = some [] ∨ keyArray = none ∨ keyLength = none)
            ∧ securityLevel ≠ 0x11 ∧ securityLevel ≠ 0x71))
      ∧ ((ZLGKey seedArray securityLevel variantName keyArray keyLength).ret = 0
        ↔ (¬ (seedArray = none ∨ seedArray = some [] ∨ keyArray = none ∨ keyLength = none)
            ∧ (securityLevel = 0x11 ∨ securityLevel = 0x71)))
      ∧ (¬ (seedArray = none ∨ seedArray = some [] ∨ keyArray = none ∨ keyLength = none) →
          (ZLGKey seedArray microsec.SecLevel_3 variantName keyArray keyLength).ret = -2)
      ∧ microsec.SecLevel_3 = 0xD1
      ∧ ((ZLGKey seedArray securityLevel variantName keyArray keyLength).ret = -1
          ∨ (ZLGKey seedArray securityLevel variantName keyArray keyLength).ret = -2 →
        (ZLGKey seedArray securityLevel variantName keyArray keyLength).keyArray = keyArray
          ∧ (ZLGKey seedArray securityLevel variantName keyArray keyLength).keyLength
              = keyLength) := by
  by_cases hinv : seedArray = none ∨ seedArray = some [] ∨ keyArray = none ∨ keyLength = none
  · rw [ZLGKey_invalid _ _ _ _ _ hinv]
    simp [hinv, microsec.SecLevel_3]
  · obtain ⟨s, kb, l0, hs, hsn, hk, hl⟩ := ZLGKey_args seedArray keyArray keyLength hinv
    subst hs hk hl
    rw [ZLGKey_valid _ _ _ _ _ hsn, ZLGKey_valid _ _ _ _ _ hsn]
    by_cases h11 : securityLevel = 0x11
    · subst h11
      simp [hsn, microsec.SecLevel_3]
    · by_cases h71 : securityLevel = 0x71
      · subst h71
        simp [hsn, microsec.SecLevel_3]
      · simp [hsn, h11, h71, microsec.SecLevel_3]

theorem C15_ZLGKey_error_codes_witness :
    (ZLGKey (some [0xAA]) microsec.SecLevel_3 none (some [1, 2, 3]) (some 7)).ret = -2
      ∧ (ZLGKey (some [0xAA]) microsec.SecLevel_3 none (some [1, 2, 3]) (some 7)).keyArray
          = some [1, 2, 3]
      ∧ (ZLGKey (some [0xAA]) microsec.SecLevel_3 none (some [1, 2, 3]) (some 7)).keyLength
          = some 7 :=
  ⟨(C15_ZLGKey_error_codes (some [0xAA]) (some [1, 2, 3]) 0xD1 none (some 7)).2.2.2.1
      (by decide),
    (C15_ZLGKey_error_codes (some [0xAA]) (some [1, 2, 3]) 0xD1 none (some 7)).2.2.2.2.2
      (Or.inr ((C15_ZLGKey_error_codes (some [0xAA]) (some [1, 2, 3]) 0xD1 none
        (some 7)).2.2.2.1 (by decide)))⟩
